import Mathlib

/-!
# MarketFlow — verification of the data-and-math core

Shallow embedding of the MarketFlow data core (candle generation, indicator
library, candle cache, portfolio ledger) and proofs about the spec's claims.

Modelling conventions:
* JavaScript numbers are idealized as exact rationals extended with the three
  special values `NaN`, `Infinity` and `-Infinity` (`JSNum`).  Arithmetic on
  finite values is exact (no double rounding); the special values follow the
  IEEE/JS propagation rules used by the source.
* `Number(x.toFixed(2))` is modelled by rounding to the nearest multiple of
  1/100 (`round2`); `Math.round` by `jsRound`.  Exact decimal string
  formatting inside error messages is rendered with `toString` — no claim
  inspects the digits of an error message.
* `Date.now()` and the `Math.random()` suffix used only to build a trade id
  are ambient inputs of `executeTrade`; they are passed as explicit
  parameters (`dateNow`, `rid`).
* Transcendental library calls (`Math.log`, `Math.cos`, `Math.sqrt`) return
  implementation-defined doubles; they are parameters of the candle
  generator (a `MathEnv`), wrapped with the JS domain rules
  (`log x = NaN` for `x < 0`, `-Infinity` at `0`, `sqrt x = NaN` for
  `x < 0`, `cos` of a non-finite value is `NaN`).
-/

namespace MarketFlow

/-- A JavaScript number: an exact rational or one of the special values. -/
inductive JSNum where
  | num (q : ℚ)
  | nan
  | inf
  | negInf
deriving DecidableEq, Repr

namespace JSNum

/-- JS addition (`+`) on numbers. -/
def add : JSNum → JSNum → JSNum
  | num a, num b => num (a + b)
  | num _, inf => inf
  | num _, negInf => negInf
  | inf, num _ => inf
  | negInf, num _ => negInf
  | inf, inf => inf
  | negInf, negInf => negInf
  | _, _ => nan

/-- JS unary minus. -/
def neg : JSNum → JSNum
  | num a => num (-a)
  | inf => negInf
  | negInf => inf
  | nan => nan

/-- JS subtraction. -/
def sub (a b : JSNum) : JSNum := add a (neg b)

/-- JS multiplication, with the `0 × ∞ = NaN` rule. -/
def mul : JSNum → JSNum → JSNum
  | num a, num b => num (a * b)
  | num a, inf => if 0 < a then inf else if a < 0 then negInf else nan
  | num a, negInf => if 0 < a then negInf else if a < 0 then inf else nan
  | inf, num b => if 0 < b then inf else if b < 0 then negInf else nan
  | negInf, num b => if 0 < b then negInf else if b < 0 then inf else nan
  | inf, inf => inf
  | inf, negInf => negInf
  | negInf, inf => negInf
  | negInf, negInf => inf
  | _, _ => nan

/-- `Math.abs`. -/
def abs : JSNum → JSNum
  | num a => num |a|
  | nan => nan
  | _ => inf

/-- `Math.max` (NaN-propagating). -/
def max : JSNum → JSNum → JSNum
  | nan, _ => nan
  | _, nan => nan
  | inf, _ => inf
  | _, inf => inf
  | negInf, x => x
  | x, negInf => x
  | num a, num b => num (Max.max a b)

/-- `Math.min` (NaN-propagating). -/
def min : JSNum → JSNum → JSNum
  | nan, _ => nan
  | _, nan => nan
  | negInf, _ => negInf
  | _, negInf => negInf
  | inf, x => x
  | x, inf => x
  | num a, num b => num (Min.min a b)

/-- JS `<` as a boolean (false on any NaN operand). -/
def ltb : JSNum → JSNum → Bool
  | num a, num b => decide (a < b)
  | num _, inf => true
  | num _, negInf => false
  | inf, num _ => false
  | inf, inf => false
  | inf, negInf => false
  | negInf, num _ => true
  | negInf, inf => true
  | negInf, negInf => false
  | _, _ => false

/-- JS `<=` as a boolean (false on any NaN operand). -/
def leb : JSNum → JSNum → Bool
  | num a, num b => decide (a ≤ b)
  | num _, inf => true
  | num _, negInf => false
  | inf, num _ => false
  | inf, inf => true
  | inf, negInf => false
  | negInf, num _ => true
  | negInf, inf => true
  | negInf, negInf => true
  | _, _ => false

/-- `Number.isFinite`. -/
def isFiniteB : JSNum → Bool
  | num _ => true
  | _ => false

/-- `Number.isInteger`. -/
def isIntegerB : JSNum → Bool
  | num q => decide (q.den = 1)
  | _ => false

end JSNum

/-- Round a rational to the nearest multiple of 1/100: the value of
`Number(x.toFixed(2))` for a finite `x` (ties are rounded up; no tie is hit
by any concrete value in this development, and only monotonicity and exact
values at non-ties are used). -/
def round2 (q : ℚ) : ℚ := (Int.floor (q * 100 + 1/2) : ℚ) / 100

/-- `Number(x.toFixed(2))` on a JS number: special values format and parse
back to themselves. -/
def jsToFixed2 : JSNum → JSNum
  | .num q => .num (round2 q)
  | x => x

/-- `Math.round`: round half toward positive infinity; special values pass
through. -/
def jsRound : JSNum → JSNum
  | .num q => .num ((Int.floor (q + 1/2) : ℚ))
  | x => x

/-! ## Portfolio ledger (src/data/candleHelpers.ts lines 134–263,
validated `executeTrade`) -/

/-- Trade direction. -/
inductive TradeType where
  | buy
  | sell
deriving DecidableEq, Repr

/-- A held position (`types.ts`). -/
structure Position where
  symbol : String
  shares : ℚ
  avgCost : ℚ
  currentPrice : ℚ
deriving DecidableEq, Repr

/-- An executed trade record (`types.ts`). -/
structure Trade where
  id : String
  symbol : String
  type : TradeType
  shares : ℚ
  price : ℚ
  timestamp : Int
  total : ℚ
deriving DecidableEq, Repr

/-- The portfolio state (`types.ts`). -/
structure Portfolio where
  cash : ℚ
  positions : List Position
  trades : List Trade
  startingCash : ℚ
deriving DecidableEq, Repr

/-- `DEFAULT_STARTING_CASH` (constants.ts). -/
def DEFAULT_STARTING_CASH : ℚ := 100000

/-- `createPortfolio` (candleHelpers.ts lines 139–146). -/
def createPortfolio (startingCash : ℚ := DEFAULT_STARTING_CASH) : Portfolio :=
  { cash := startingCash
    positions := []
    trades := []
    startingCash := startingCash }

/-- The result record of `executeTrade`. -/
structure TradeResult where
  success : Bool
  error : Option String
  portfolio : Portfolio
deriving DecidableEq, Repr

/-- The trade id `` `T${Date.now()}-${Math.random().toString(36).slice(2,6)}` ``:
the ambient clock value and random suffix are parameters. -/
def mkTradeId (dateNow : Int) (rid : String) : String :=
  "T" ++ toString dateNow ++ "-" ++ rid

/-- The `Trade` record `executeTrade` pushes on success. -/
def mkTrade (symbol : String) (type : TradeType) (s p : ℚ)
    (dateNow : Int) (rid : String) : Trade :=
  { id := mkTradeId dateNow rid
    symbol := symbol
    type := type
    shares := s
    price := p
    timestamp := dateNow
    total := s * p }

/-- Placeholder `Position` for in-range `getD` reads (never actually read:
every index passed is produced by `findIdx?` and is in range). -/
def posDefault : Position := ⟨"", 0, 0, 0⟩

/-- Body of `executeTrade` after the two validation guards have passed:
`s` and `p` are the (finite, positive) shares and price.  The source's
defensive deep copy `positions.map(p => ({...p}))` is the identity at the
value level, so the copied arrays are written as the originals.
Money arithmetic here is the exact-rational idealization used by the
per-call claims; `executeTradeValidFP` below is the same body with
saturating double arithmetic, against which the long-run cash invariant
is settled (the idealization is not sound for it: `shares * price` can
overflow). -/
def executeTradeValid (portfolio : Portfolio) (symbol : String) (type : TradeType)
    (s p : ℚ) (dateNow : Int) (rid : String) : TradeResult :=
  let total := s * p
  match type with
  | .buy =>
    if portfolio.cash < total then
      { success := false
        error := some ("Insufficient funds. Need $" ++ toString total ++
          ", have $" ++ toString portfolio.cash)
        portfolio := portfolio }
    else
      let tr := mkTrade symbol .buy s p dateNow rid
      match portfolio.positions.findIdx? (fun q => q.symbol == symbol) with
      | some i =>
        let existing := portfolio.positions.getD i posDefault
        let totalShares := existing.shares + s
        { success := true
          error := none
          portfolio :=
            { portfolio with
              cash := portfolio.cash - total
              positions := portfolio.positions.set i
                { existing with
                  avgCost := (existing.avgCost * existing.shares + p * s) / totalShares
                  shares := totalShares
                  currentPrice := p }
              trades := portfolio.trades ++ [tr] } }
      | none =>
        { success := true
          error := none
          portfolio :=
            { portfolio with
              cash := portfolio.cash - total
              positions := portfolio.positions ++
                [{ symbol := symbol, shares := s, avgCost := p, currentPrice := p }]
              trades := portfolio.trades ++ [tr] } }
  | .sell =>
    match portfolio.positions.findIdx? (fun q => q.symbol == symbol) with
    | none =>
      { success := false
        error := some ("Insufficient shares. Have 0, trying to sell " ++ toString s)
        portfolio := portfolio }
    | some i =>
      let existing := portfolio.positions.getD i posDefault
      if existing.shares < s then
        { success := false
          error := some ("Insufficient shares. Have " ++ toString existing.shares ++
            ", trying to sell " ++ toString s)
          portfolio := portfolio }
      else
        let tr := mkTrade symbol .sell s p dateNow rid
        if existing.shares = s then
          { success := true
            error := none
            portfolio :=
              { portfolio with
                cash := portfolio.cash + total
                positions := portfolio.positions.eraseIdx i
                trades := portfolio.trades ++ [tr] } }
        else
          { success := true
            error := none
            portfolio :=
              { portfolio with
                cash := portfolio.cash + total
                positions := portfolio.positions.set i
                  { existing with
                    shares := existing.shares - s
                    currentPrice := p }
                trades := portfolio.trades ++ [tr] } }

/-- `executeTrade` (candleHelpers.ts lines 148–231).  The two validation
guards run in source order: first
`!Number.isFinite(shares) || shares <= 0 || !Number.isInteger(shares)`,
then `!Number.isFinite(price) || price <= 0`; the match arms spell the same
tests out on the shape of the JS numbers. -/
def executeTrade (portfolio : Portfolio) (symbol : String) (type : TradeType)
    (shares price : JSNum) (dateNow : Int) (rid : String) : TradeResult :=
  match shares, price with
  | .num s, .num p =>
    if s ≤ 0 ∨ ¬ s.den = 1 then
      { success := false, error := some "Shares must be a positive integer"
        portfolio := portfolio }
    else if p ≤ 0 then
      { success := false, error := some "Price must be a positive number"
        portfolio := portfolio }
    else
      executeTradeValid portfolio symbol type s p dateNow rid
  | .num s, _ =>
    if s ≤ 0 ∨ ¬ s.den = 1 then
      { success := false, error := some "Shares must be a positive integer"
        portfolio := portfolio }
    else
      { success := false, error := some "Price must be a positive number"
        portfolio := portfolio }
  | _, _ =>
    { success := false, error := some "Shares must be a positive integer"
      portfolio := portfolio }

/-- The shares argument passes validation: a finite positive integer. -/
def validShares (sh : JSNum) : Prop := ∃ s : ℚ, sh = .num s ∧ 0 < s ∧ s.den = 1

/-- The price argument passes validation: a finite positive number. -/
def validPrice (pr : JSNum) : Prop := ∃ p : ℚ, pr = .num p ∧ 0 < p

/-- One requested trade, with its ambient clock/id inputs. -/
structure TradeCmd where
  symbol : String
  type : TradeType
  shares : JSNum
  price : JSNum
  dateNow : Int
  rid : String

/-- Thread a portfolio through a sequence of `executeTrade` calls, keeping
the returned portfolio whether or not each trade succeeds. -/
def runTrades (P : Portfolio) (cmds : List TradeCmd) : Portfolio :=
  cmds.foldl
    (fun acc c => (executeTrade acc c.symbol c.type c.shares c.price c.dateNow c.rid).portfolio)
    P

/-! ## Overflow-aware portfolio ledger

The definitions above idealize post-validation money arithmetic as exact
rationals, which is adequate for the per-call claims (the guard outcomes
and frame conclusions agree with the doubles on every finite-cash
portfolio).  The source's doubles, however, saturate: `shares * price` can
overflow to `Infinity` even though both validated inputs are finite, and
`Infinity - Infinity` is `NaN`.  The `...FP` definitions below translate
the same `executeTrade` source with saturating double arithmetic
(exact within the finite range — IEEE rounding of in-range values is still
idealized, which cannot change a result's sign or finiteness class — and
overflowing to `±Infinity` at the IEEE threshold).  The long-run cash
invariant is settled against this model. -/

/-- The smallest magnitude at which a double arithmetic result rounds to
`Infinity` under round-to-nearest-even: `2^1024 - 2^970` (everything
strictly below it rounds to at most the largest finite double,
`2^1024 - 2^971`). -/
def OVERFLOW_THRESHOLD : ℚ := 2 ^ 1024 - 2 ^ 970

/-- An exact rational result as the double it becomes: saturates to
`±Infinity` past the overflow threshold, in-range values kept exact. -/
def satNum (q : ℚ) : JSNum :=
  if OVERFLOW_THRESHOLD ≤ q then .inf
  else if q ≤ -OVERFLOW_THRESHOLD then .negInf
  else .num q

/-- Double addition: JS special-value rules, saturating overflow. -/
def fpAdd : JSNum → JSNum → JSNum
  | .num a, .num b => satNum (a + b)
  | a, b => JSNum.add a b

/-- Double subtraction: JS special-value rules, saturating overflow. -/
def fpSub : JSNum → JSNum → JSNum
  | .num a, .num b => satNum (a - b)
  | a, b => JSNum.sub a b

/-- Double multiplication: JS special-value rules, saturating overflow. -/
def fpMul : JSNum → JSNum → JSNum
  | .num a, .num b => satNum (a * b)
  | a, b => JSNum.mul a b

/-- Double division (signed zero ignored): JS special-value rules,
saturating overflow. -/
def fpDiv : JSNum → JSNum → JSNum
  | .num a, .num b =>
    if b = 0 then (if a = 0 then .nan else if 0 < a then .inf else .negInf)
    else satNum (a / b)
  | .nan, _ => .nan
  | _, .nan => .nan
  | .inf, .num b => if 0 ≤ b then .inf else .negInf
  | .negInf, .num b => if 0 ≤ b then .negInf else .inf
  | .num _, .inf => .num 0
  | .num _, .negInf => .num 0
  | .inf, .inf => .nan
  | .inf, .negInf => .nan
  | .negInf, .inf => .nan
  | .negInf, .negInf => .nan

/-- JS `===` on numbers (`NaN === NaN` is false). -/
def jsEqNum : JSNum → JSNum → Bool
  | .num a, .num b => decide (a = b)
  | .inf, .inf => true
  | .negInf, .negInf => true
  | _, _ => false

/-- A held position, fields as doubles. -/
structure PositionFP where
  symbol : String
  shares : JSNum
  avgCost : JSNum
  currentPrice : JSNum
deriving DecidableEq, Repr

/-- An executed trade record, numeric fields as doubles. -/
structure TradeFP where
  id : String
  symbol : String
  type : TradeType
  shares : JSNum
  price : JSNum
  timestamp : Int
  total : JSNum
deriving DecidableEq, Repr

/-- The portfolio state, numeric fields as doubles. -/
structure PortfolioFP where
  cash : JSNum
  positions : List PositionFP
  trades : List TradeFP
  startingCash : JSNum
deriving DecidableEq, Repr

/-- `createPortfolio` over doubles. -/
def createPortfolioFP (startingCash : ℚ := DEFAULT_STARTING_CASH) : PortfolioFP :=
  { cash := .num startingCash
    positions := []
    trades := []
    startingCash := .num startingCash }

/-- The result record of the overflow-aware `executeTrade`. -/
structure TradeResultFP where
  success : Bool
  error : Option String
  portfolio : PortfolioFP
deriving DecidableEq, Repr

/-- The `Trade` record pushed on success, `total = shares * price` as a
double. -/
def mkTradeFP (symbol : String) (type : TradeType) (s p : ℚ)
    (dateNow : Int) (rid : String) : TradeFP :=
  { id := mkTradeId dateNow rid
    symbol := symbol
    type := type
    shares := .num s
    price := .num p
    timestamp := dateNow
    total := fpMul (.num s) (.num p) }

/-- Placeholder `PositionFP` for in-range `getD` reads (never actually
read). -/
def posDefaultFP : PositionFP := ⟨"", .num 0, .num 0, .num 0⟩

/-- Body of `executeTrade` after the validation guards, with every
arithmetic operation the saturating double one.  Same control flow as
`executeTradeValid`; `total > cash` is the JS comparison (false on NaN),
`existing.shares === shares` the JS strict equality. -/
def executeTradeValidFP (portfolio : PortfolioFP) (symbol : String)
    (type : TradeType) (s p : ℚ) (dateNow : Int) (rid : String) : TradeResultFP :=
  let total := fpMul (.num s) (.num p)
  match type with
  | .buy =>
    if JSNum.ltb portfolio.cash total then
      { success := false
        error := some "Insufficient funds."
        portfolio := portfolio }
    else
      let tr := mkTradeFP symbol .buy s p dateNow rid
      match portfolio.positions.findIdx? (fun q => q.symbol == symbol) with
      | some i =>
        let existing := portfolio.positions.getD i posDefaultFP
        let totalShares := fpAdd existing.shares (.num s)
        { success := true
          error := none
          portfolio :=
            { portfolio with
              cash := fpSub portfolio.cash total
              positions := portfolio.positions.set i
                { existing with
                  avgCost := fpDiv (fpAdd (fpMul existing.avgCost existing.shares)
                    (fpMul (.num p) (.num s))) totalShares
                  shares := totalShares
                  currentPrice := .num p }
              trades := portfolio.trades ++ [tr] } }
      | none =>
        { success := true
          error := none
          portfolio :=
            { portfolio with
              cash := fpSub portfolio.cash total
              positions := portfolio.positions ++
                [{ symbol := symbol, shares := .num s, avgCost := .num p,
                   currentPrice := .num p }]
              trades := portfolio.trades ++ [tr] } }
  | .sell =>
    match portfolio.positions.findIdx? (fun q => q.symbol == symbol) with
    | none =>
      { success := false
        error := some "Insufficient shares."
        portfolio := portfolio }
    | some i =>
      let existing := portfolio.positions.getD i posDefaultFP
      if JSNum.ltb existing.shares (.num s) then
        { success := false
          error := some "Insufficient shares."
          portfolio := portfolio }
      else
        let tr := mkTradeFP symbol .sell s p dateNow rid
        if jsEqNum existing.shares (.num s) then
          { success := true
            error := none
            portfolio :=
              { portfolio with
                cash := fpAdd portfolio.cash total
                positions := portfolio.positions.eraseIdx i
                trades := portfolio.trades ++ [tr] } }
        else
          { success := true
            error := none
            portfolio :=
              { portfolio with
                cash := fpAdd portfolio.cash total
                positions := portfolio.positions.set i
                  { existing with
                    shares := fpSub existing.shares (.num s)
                    currentPrice := .num p }
                trades := portfolio.trades ++ [tr] } }

/-- Overflow-aware `executeTrade`: validation guards exactly as in
`executeTrade`, then the saturating body. -/
def executeTradeFP (portfolio : PortfolioFP) (symbol : String) (type : TradeType)
    (shares price : JSNum) (dateNow : Int) (rid : String) : TradeResultFP :=
  match shares, price with
  | .num s, .num p =>
    if s ≤ 0 ∨ ¬ s.den = 1 then
      { success := false, error := some "Shares must be a positive integer"
        portfolio := portfolio }
    else if p ≤ 0 then
      { success := false, error := some "Price must be a positive number"
        portfolio := portfolio }
    else
      executeTradeValidFP portfolio symbol type s p dateNow rid
  | .num s, _ =>
    if s ≤ 0 ∨ ¬ s.den = 1 then
      { success := false, error := some "Shares must be a positive integer"
        portfolio := portfolio }
    else
      { success := false, error := some "Price must be a positive number"
        portfolio := portfolio }
  | _, _ =>
    { success := false, error := some "Shares must be a positive integer"
      portfolio := portfolio }

/-- Thread an overflow-aware portfolio through a sequence of calls. -/
def runTradesFP (P : PortfolioFP) (cmds : List TradeCmd) : PortfolioFP :=
  cmds.foldl
    (fun acc c =>
      (executeTradeFP acc c.symbol c.type c.shares c.price c.dateNow c.rid).portfolio)
    P

/-- What really holds of `cash` in double arithmetic: it is never a
negative number — a nonnegative finite value, `Infinity`, or `NaN`. -/
def cashOkFP (x : JSNum) : Prop :=
  (∃ q : ℚ, x = .num q ∧ 0 ≤ q) ∨ x = .inf ∨ x = .nan

/-! ## Seeded PRNG (src/utils.ts lines 7–13) -/

/-- One step of the linear congruential recurrence
`s = (s * 16807 + 0) % 2147483647`; JS `%` is the truncated remainder
(sign of the dividend), i.e. `Int.tmod`.  The products stay far below
2^53, so JS double arithmetic is exact here. -/
def seededRandomNext (s : Int) : Int := (s * 16807 + 0).tmod 2147483647

/-- The value the closure returns from its updated state:
`(s - 1) / 2147483646`. -/
def srValue (s : Int) : ℚ := ((s : ℚ) - 1) / 2147483646

/-- The internal state after `n` calls of the closure `seededRandom(seed)`. -/
def seededState (seed : Int) : Nat → Int
  | 0 => seed
  | n + 1 => seededRandomNext (seededState seed n)

/-- The value of call number `n` (0-based) of `seededRandom(seed)`. -/
def seededVal (seed : Int) (n : Nat) : ℚ := srValue (seededState seed (n + 1))

/-! ## Candle generation (src/data/candlestickData.ts lines 229–286) -/

/-- The ambient `Math` library: implementation-defined double approximations
of log, cos and sqrt on the arguments where JS returns a finite number.
The generator is parametric in it; every date/length/shape fact proved below
holds for all implementations. -/
structure MathEnv where
  log : ℚ → ℚ
  cos : ℚ → ℚ
  sqrt : ℚ → ℚ

/-- `Math.log` with its JS edge cases: negative → NaN, zero → -Infinity. -/
def jsLog (env : MathEnv) : JSNum → JSNum
  | .num q => if q < 0 then .nan else if q = 0 then .negInf else .num (env.log q)
  | .nan => .nan
  | .inf => .inf
  | .negInf => .nan

/-- `Math.sqrt` with its JS edge cases: negative → NaN. -/
def jsSqrt (env : MathEnv) : JSNum → JSNum
  | .num q => if q < 0 then .nan else .num (env.sqrt q)
  | .nan => .nan
  | .inf => .inf
  | .negInf => .nan

/-- `Math.cos`: NaN on any non-finite argument. -/
def jsCos (env : MathEnv) : JSNum → JSNum
  | .num q => .num (env.cos q)
  | _ => .nan

/-- The double `Math.PI`, an exact rational (3.141592653589793…,
`0x400921FB54442D18` = 884279719003555 / 2^48). -/
def jsPI : ℚ := 884279719003555 / 281474976710656

/-- A generated OHLCV candle.  `time` is the epoch-day number of the
`YYYY-MM-DD` string the source stores (UTC-day granularity; the integer
order is the lexicographic order of the date strings).  `open` is a Lean
keyword, hence the field name `open_`. -/
structure Candle where
  time : Int
  open_ : JSNum
  high : JSNum
  low : JSNum
  close : JSNum
  volume : JSNum
deriving DecidableEq, Repr

/-- `Date.prototype.getDay` for an epoch-day number: day 0 (1970-01-01) was
a Thursday (`getDay() = 4`). -/
def dowJS (day : Int) : Int := (day + 4) % 7

/-- The generator's weekend test `dow === 0 || dow === 6`. -/
def isWeekend (day : Int) : Bool := dowJS day = 0 ∨ dowJS day = 6

/-- One weekday iteration of the generator's `for` loop: from the current
PRNG state and running price, the pushed candle, the PRNG state after the
day's five draws (u1, u2, the two wick draws, the volume draw — in source
order) and the new running price (the raw, unrounded close). -/
def genDay (env : MathEnv) (volatility trend : ℚ) (day : Int) (s : Int)
    (price : JSNum) : Candle × Int × JSNum :=
  let s1 := seededRandomNext s
  let u1 := srValue s1
  let s2 := seededRandomNext s1
  let u2 := srValue s2
  let normal := JSNum.mul
    (jsSqrt env (JSNum.mul (.num (-2)) (jsLog env (.num u1))))
    (jsCos env (.num (2 * jsPI * u2)))
  let dailyReturn := JSNum.add (.num trend) (JSNum.mul normal (.num volatility))
  let openJ := price
  let closeJ := JSNum.mul openJ (JSNum.add (.num 1) dailyReturn)
  let s3 := seededRandomNext s2
  let wickUp := JSNum.abs (JSNum.mul
    (JSNum.mul (JSNum.mul normal (.num volatility)) (.num (1/2))) (.num (srValue s3)))
  let s4 := seededRandomNext s3
  let wickDown := JSNum.abs (JSNum.mul
    (JSNum.mul (JSNum.mul normal (.num volatility)) (.num (1/2))) (.num (srValue s4)))
  let high := JSNum.mul (JSNum.max openJ closeJ) (JSNum.add (.num 1) wickUp)
  let low := JSNum.mul (JSNum.min openJ closeJ) (JSNum.sub (.num 1) wickDown)
  let s5 := seededRandomNext s4
  let baseVol : ℚ := 10000000 + srValue s5 * 40000000
  let volMult := JSNum.add (.num 1) (JSNum.mul (JSNum.abs dailyReturn) (.num 20))
  let volume := jsRound (JSNum.mul (.num baseVol) volMult)
  ({ time := day
     open_ := jsToFixed2 openJ
     high := jsToFixed2 high
     low := jsToFixed2 low
     close := jsToFixed2 closeJ
     volume := volume }, s5, closeJ)

/-- The `for` loop of `generateCandlestickData`: `days` iterations left,
`day` the current calendar day, `s` the PRNG state, `price` the running
price (the previous raw close).  Weekend days consume no PRNG draws. -/
def genLoop (env : MathEnv) (volatility trend : ℚ) :
    Nat → Int → Int → JSNum → List Candle
  | 0, _, _, _ => []
  | d + 1, day, s, price =>
    if isWeekend day then
      genLoop env volatility trend d (day + 1) s price
    else
      let r := genDay env volatility trend day s price
      r.1 :: genLoop env volatility trend d (day + 1) r.2.1 r.2.2

/-- `symbol.split('').reduce((a, c) => a + c.charCodeAt(0), 0)`.
`Char.toNat` agrees with `charCodeAt` on basic-plane characters (every
symbol used by the app is ASCII). -/
def charCodeSum (symbol : String) : Nat :=
  symbol.data.foldl (fun a c => a + c.toNat) 0

/-- `generateCandlestickData` (candlestickData.ts lines 229–286).  `now` is
the ambient `new Date()` as an epoch-day number; the loop runs over the
`days` calendar days before `now`. -/
def generateCandlestickData (env : MathEnv) (symbol : String) (startPrice : ℚ)
    (days : Nat) (volatility trend : ℚ) (now : Int) : List Candle :=
  let seed : Int := (charCodeSum symbol : Int) * 31337
  genLoop env volatility trend days (now - days) seed (.num startPrice)

/-! ## Indicators (src/data/indicators.ts) -/

/-- The slice of a `Candle` the indicator functions read (`close` and
`time`); per the data model these fields hold finite positive doubles, so
`close` is a plain rational here. -/
structure ICandle where
  time : Int
  close : ℚ
deriving DecidableEq, Repr

/-- An indicator output point. -/
structure TSPoint where
  time : Int
  value : ℚ
deriving DecidableEq, Repr

/-- Placeholder for in-range `getD` reads (indices guarded by the length
checks, never actually read). -/
def iDefault : ICandle := ⟨0, 0⟩

/-- The rolling-sum loop of `calculateSMA` (`i` from `period` up): the
first list is `data` from index `period`, the second is `data` itself
(supplying `data[i - period]`). -/
def smaLoop (p : Nat) : ℚ → List ICandle → List ICandle → List TSPoint
  | _, [], _ => []
  | _, _ :: _, [] => []
  | sum, c :: rest, old :: oldRest =>
    let sum' := sum + c.close - old.close
    ⟨c.time, round2 (sum' / (p : ℚ))⟩ :: smaLoop p sum' rest oldRest

/-- `calculateSMA` (indicators.ts lines 5–17). -/
def calculateSMA (data : List ICandle) (period : Int) : List TSPoint :=
  if period ≤ 0 ∨ (data.length : Int) < period then [] else
  let p := period.toNat
  let sum0 := ((data.take p).map ICandle.close).sum
  ⟨(data.getD (p - 1) iDefault).time, round2 (sum0 / (p : ℚ))⟩ ::
    smaLoop p sum0 (data.drop p) data

/-- The EMA recurrence loop (`i` from `period` up). -/
def emaLoop (multiplier : ℚ) : ℚ → List ICandle → List TSPoint
  | _, [] => []
  | ema, c :: rest =>
    let e := (c.close - ema) * multiplier + ema
    ⟨c.time, round2 e⟩ :: emaLoop multiplier e rest

/-- `calculateEMA` (indicators.ts lines 19–35). -/
def calculateEMA (data : List ICandle) (period : Int) : List TSPoint :=
  if period ≤ 0 ∨ (data.length : Int) < period then [] else
  let p := period.toNat
  let multiplier : ℚ := 2 / ((period : ℚ) + 1)
  let ema0 := ((data.take p).map ICandle.close).sum / (p : ℚ)
  ⟨(data.getD (p - 1) iDefault).time, round2 ema0⟩ ::
    emaLoop multiplier ema0 (data.drop p)

/-- The day-over-day close changes, paired with the time of the later
candle (`changes[i]` belongs to `data[i+1]`). -/
def timedChanges (data : List ICandle) : List (Int × ℚ) :=
  List.zipWith (fun c prev => (c.time, c.close - prev.close)) data.tail data

/-- One iteration of the Wilder-smoothing loop of `calculateRSI`: from the
previous averages and the day's change, the updated `(avgGain, avgLoss)`
and the raw RSI value pushed for the day. -/
def rsiStep (p : ℚ) (g l change : ℚ) : ℚ × ℚ × ℚ :=
  let gain := if 0 < change then change else 0
  let loss := if change < 0 then |change| else 0
  let g' := (g * (p - 1) + gain) / p
  let l' := (l * (p - 1) + loss) / p
  (g', l', if l' = 0 then 100 else 100 - 100 / (1 + g' / l'))

/-- The Wilder-smoothing loop over the remaining timed changes. -/
def rsiLoop (p : ℚ) : ℚ → ℚ → List (Int × ℚ) → List TSPoint
  | _, _, [] => []
  | g, l, tc :: rest =>
    let step := rsiStep p g l tc.2
    ⟨tc.1, round2 step.2.2⟩ :: rsiLoop p step.1 step.2.1 rest

/-- `calculateRSI` (indicators.ts lines 37–62).  The seed pass accumulates
gains into the first and `|change|` of non-gains into the second component
(the source's `if (changes[i] > 0) avgGain += … else avgLoss += …`). -/
def calculateRSI (data : List ICandle) (period : Int := 14) : List TSPoint :=
  if period ≤ 0 ∨ (data.length : Int) < period + 1 then [] else
  let p := period.toNat
  let tch := timedChanges data
  let seed := (tch.take p).foldl
    (fun (a : ℚ × ℚ) tc => if 0 < tc.2 then (a.1 + tc.2, a.2) else (a.1, a.2 + |tc.2|))
    (0, 0)
  let avgGain := seed.1 / (p : ℚ)
  let avgLoss := seed.2 / (p : ℚ)
  let rs := if avgLoss = 0 then (100 : ℚ) else avgGain / avgLoss
  ⟨(data.getD p iDefault).time, round2 (100 - 100 / (1 + rs))⟩ ::
    rsiLoop (p : ℚ) avgGain avgLoss (tch.drop p)

/-- The three aligned Bollinger outputs. -/
structure BollingerResult where
  upper : List TSPoint
  middle : List TSPoint
  lower : List TSPoint
deriving DecidableEq, Repr

/-- One emitted Bollinger row (middle, upper, lower) from the current
rolling sums; variance is clamped at 0 before the library square root. -/
def bbPoint (env : MathEnv) (p : Nat) (sdev : ℚ) (sum sumSq : ℚ) (t : Int) :
    TSPoint × TSPoint × TSPoint :=
  let mean := sum / (p : ℚ)
  let variance := Max.max 0 (sumSq / (p : ℚ) - mean * mean)
  let sd := env.sqrt variance
  (⟨t, round2 mean⟩, ⟨t, round2 (mean + sdev * sd)⟩, ⟨t, round2 (mean - sdev * sd)⟩)

/-- The rolling loop of `calculateBollingerBands` (`i` from `period` up). -/
def bbLoop (env : MathEnv) (p : Nat) (sdev : ℚ) :
    ℚ → ℚ → List ICandle → List ICandle → List (TSPoint × TSPoint × TSPoint)
  | _, _, [], _ => []
  | _, _, _ :: _, [] => []
  | sum, sumSq, c :: rest, old :: oldRest =>
    let sum' := sum + c.close - old.close
    let sumSq' := sumSq + c.close * c.close - old.close * old.close
    bbPoint env p sdev sum' sumSq' c.time :: bbLoop env p sdev sum' sumSq' rest oldRest

/-- `calculateBollingerBands` (indicators.ts lines 106–144). -/
def calculateBollingerBands (env : MathEnv) (data : List ICandle)
    (period : Int := 20) (sdev : ℚ := 2) : BollingerResult :=
  if period ≤ 0 ∨ (data.length : Int) < period then ⟨[], [], []⟩ else
  let p := period.toNat
  let closes := (data.take p).map ICandle.close
  let sum := closes.sum
  let sumSq := (closes.map (fun x => x * x)).sum
  let rows := bbPoint env p sdev sum sumSq (data.getD (p - 1) iDefault).time ::
    bbLoop env p sdev sum sumSq (data.drop p) data
  { upper := rows.map (fun r => r.2.1)
    middle := rows.map (fun r => r.1)
    lower := rows.map (fun r => r.2.2) }

/-! ## Candle cache (src/data/candleHelpers.ts lines 30–133) -/

/-- The chart timeframes. -/
inductive ChartTimeframe where
  | m1
  | m3
  | m6
  | y1
deriving DecidableEq, Repr

/-- `TIMEFRAME_DAYS` (constants.ts lines 145–150). -/
def TIMEFRAME_DAYS : ChartTimeframe → Nat
  | .m1 => 30
  | .m3 => 90
  | .m6 => 180
  | .y1 => 365

/-- A symbol's generation preset. -/
structure StockPreset where
  price : ℚ
  volatility : ℚ
  trend : ℚ
deriving DecidableEq, Repr

/-- `STOCK_PRESETS` (constants.ts lines 223–238). -/
def STOCK_PRESETS : List (String × StockPreset) :=
  [ ("AAPL", ⟨228.5, 0.018, 0.0004⟩)
  , ("MSFT", ⟨427.3, 0.016, 0.0005⟩)
  , ("NVDA", ⟨117.8, 0.035, 0.001⟩)
  , ("GOOGL", ⟨176.4, 0.02, 0.0003⟩)
  , ("AMZN", ⟨208.3, 0.022, 0.0004⟩)
  , ("TSLA", ⟨244.6, 0.04, 0.0002⟩)
  , ("META", ⟨612.7, 0.025, 0.0006⟩)
  , ("JPM", ⟨215.3, 0.015, 0.0003⟩)
  , ("V", ⟨285.6, 0.013, 0.0003⟩)
  , ("JNJ", ⟨157.8, 0.012, 0.0001⟩)
  , ("XOM", ⟨109.2, 0.018, -0.0001⟩)
  , ("LLY", ⟨862.3, 0.025, 0.001⟩)
  , ("NFLX", ⟨862.4, 0.028, 0.0007⟩)
  , ("BRK.B", ⟨412.7, 0.01, 0.0003⟩) ]

/-- `DEFAULT_PRESET` (candleHelpers.ts line 37). -/
def DEFAULT_PRESET : StockPreset := ⟨100, 0.02, 0.0003⟩

/-- `GENERATION_DAYS` (candleHelpers.ts line 40). -/
def GENERATION_DAYS : Nat := 400

/-- `MAX_CACHE_SIZE` (candleHelpers.ts line 51). -/
def MAX_CACHE_SIZE : Nat := 32

/-- `STOCK_PRESETS[symbol] || DEFAULT_PRESET`. -/
def presetFor (symbol : String) : StockPreset :=
  match STOCK_PRESETS.lookup symbol with
  | some p => p
  | none => DEFAULT_PRESET

/-- The full 400-day series generated for a symbol
(the body of the cache-miss branch of `getFullCandleData`). -/
def fullSeries (env : MathEnv) (now : Int) (symbol : String) : List Candle :=
  let preset := presetFor symbol
  generateCandlestickData env symbol (preset.price * (7/10)) GENERATION_DAYS
    preset.volatility preset.trend now

/-- The module-level `candleCache`: a JS `Map` in insertion order (new keys
are appended; `keys().next().value` is the head). -/
abbrev CandleCache := List (String × List Candle)

/-- `getFullCandleData` (candleHelpers.ts lines 57–78): look up, else
generate, evicting the oldest-inserted entry at capacity before inserting. -/
def getFullCandleData (env : MathEnv) (now : Int) (cache : CandleCache)
    (symbol : String) : List Candle × CandleCache :=
  match cache.lookup symbol with
  | some cached => (cached, cache)
  | none =>
    let allData := fullSeries env now symbol
    let cache' := if MAX_CACHE_SIZE ≤ cache.length then cache.drop 1 else cache
    (allData, cache' ++ [(symbol, allData)])

/-- `arr.slice(-n)` for `n ≥ 1`: the last `min n (length)` elements. -/
def jsSliceLast (l : List α) (n : Nat) : List α := l.drop (l.length - n)

/-- `getCandleData` (candleHelpers.ts lines 86–90). -/
def getCandleData (env : MathEnv) (now : Int) (cache : CandleCache)
    (symbol : String) (tf : ChartTimeframe) : List Candle × CandleCache :=
  let r := getFullCandleData env now cache symbol
  (jsSliceLast r.1 (TIMEFRAME_DAYS tf), r.2)

/-- `clearCandleCache` (candleHelpers.ts lines 131–133). -/
def clearCandleCache (_ : CandleCache) : CandleCache := []

/-- One cache-touching call of a session. -/
inductive CacheOp where
  | get (symbol : String) (tf : ChartTimeframe)
  | clear

/-- The cache state after one call. -/
def applyOp (env : MathEnv) (now : Int) (cache : CandleCache) : CacheOp → CandleCache
  | .get sym tf => (getCandleData env now cache sym tf).2
  | .clear => clearCandleCache cache

/-- The cache state after a session's sequence of calls. -/
def runOps (env : MathEnv) (now : Int) (cache : CandleCache) (ops : List CacheOp) :
    CandleCache :=
  ops.foldl (applyOp env now) cache

/-- Cache well-formedness: bounded by the capacity, and every entry holds
exactly the deterministic full series of its key. -/
def cacheWF (env : MathEnv) (now : Int) (cache : CandleCache) : Prop :=
  cache.length ≤ MAX_CACHE_SIZE ∧ ∀ e ∈ cache, e.2 = fullSeries env now e.1

/-- The number of non-weekend days among the `n` days starting at `start`. -/
def weekdayCount : Int → Nat → Nat
  | _, 0 => 0
  | start, d + 1 => (if isWeekend start then 0 else 1) + weekdayCount (start + 1) d

/-! ## Concrete scenario values used by witnesses and counterexamples -/

/-- A concrete (arbitrary) `Math` implementation for closed evaluations
whose results do not depend on the transcendental values. -/
def cenv : MathEnv := ⟨fun _ => 0, fun _ => 0, fun _ => 0⟩

/-- `createPortfolio(100000)`. -/
def exP0 : Portfolio := createPortfolio 100000

/-- `executeTrade(buy, 'X', 10, 100)` on `exP0`. -/
def exR1 : TradeResult := executeTrade exP0 "X" .buy (.num 10) (.num 100) 0 "aaaa"

/-- A second `buy 10 @ 200`. -/
def exR2 : TradeResult := executeTrade exR1.portfolio "X" .buy (.num 10) (.num 200) 1 "bbbb"

/-- Selling all 20 shares. -/
def exR3 : TradeResult := executeTrade exR2.portfolio "X" .sell (.num 20) (.num 150) 2 "cccc"

/-! ## Theorems -/

/-! ### Helper lemmas -/

theorem filter_set_of_false {α : Type} (p : α → Bool) (l : List α) :
    ∀ (i : Nat) (a b : α), l[i]? = some b → p b = false → p a = false →
      (l.set i a).filter p = l.filter p := by
  induction l with
  | nil => intro i a b h; simp at h
  | cons x xs ih =>
    intro i a b hb hpb hpa
    cases i with
    | zero =>
      simp only [List.getElem?_cons_zero, Option.some.injEq] at hb
      subst hb
      simp [List.filter_cons, hpb, hpa]
    | succ n =>
      simp only [List.getElem?_cons_succ] at hb
      simp [List.filter_cons, ih n a b hb hpb hpa]

theorem filter_eraseIdx_of_false {α : Type} (p : α → Bool) (l : List α) :
    ∀ (i : Nat) (b : α), l[i]? = some b → p b = false →
      (l.eraseIdx i).filter p = l.filter p := by
  induction l with
  | nil => intro i b h; simp at h
  | cons x xs ih =>
    intro i b hb hpb
    cases i with
    | zero =>
      simp only [List.getElem?_cons_zero, Option.some.injEq] at hb
      subst hb
      simp [List.filter_cons, hpb]
    | succ n =>
      simp only [List.getElem?_cons_succ] at hb
      simp [List.filter_cons, ih n b hb hpb]

/-- What a successful `findIdx?` search for a symbol yields: the indexed
read is in range and the found position carries the searched symbol. -/
theorem findIdx?_position_spec (l : List Position) (sym : String) (i : Nat)
    (h : l.findIdx? (fun q => q.symbol == sym) = some i) :
    l[i]? = some (l.getD i posDefault) ∧ (l.getD i posDefault).symbol = sym := by
  rw [List.findIdx?_eq_some_iff_getElem] at h
  obtain ⟨hi, hp, -⟩ := h
  have hg : l[i]? = some (l.get ⟨i, hi⟩) := by
    rw [List.getElem?_eq_getElem hi]
    simp
  have hgd : l.getD i posDefault = l.get ⟨i, hi⟩ := by
    simp [List.getD_eq_getElem?_getD, hg]
  refine ⟨by rw [hg, hgd], ?_⟩
  rw [hgd]
  simpa using hp

/-- Passing both validation guards reduces `executeTrade` to its body. -/
theorem executeTrade_valid_eq (P : Portfolio) (sym : String) (ty : TradeType)
    (s p : ℚ) (dn : Int) (rid : String)
    (hs : 0 < s) (hd : s.den = 1) (hp : 0 < p) :
    executeTrade P sym ty (.num s) (.num p) dn rid =
      executeTradeValid P sym ty s p dn rid := by
  simp only [executeTrade]
  rw [if_neg (by simp [not_or, not_le.mpr hs, hd]), if_neg (not_le.mpr hp)]

theorem executeTradeValid_buy_insufficient (P : Portfolio) (sym : String)
    (s p : ℚ) (dn : Int) (rid : String) (hc : P.cash < s * p) :
    executeTradeValid P sym .buy s p dn rid =
      { success := false
        error := some ("Insufficient funds. Need $" ++ toString (s * p) ++
          ", have $" ++ toString P.cash)
        portfolio := P } := by
  simp [executeTradeValid, hc]

theorem executeTradeValid_buy_existing (P : Portfolio) (sym : String)
    (s p : ℚ) (dn : Int) (rid : String) (i : Nat)
    (hfind : P.positions.findIdx? (fun q => q.symbol == sym) = some i)
    (hc : ¬ P.cash < s * p) :
    executeTradeValid P sym .buy s p dn rid =
      { success := true
        error := none
        portfolio :=
          { P with
            cash := P.cash - s * p
            positions := P.positions.set i
              { P.positions.getD i posDefault with
                avgCost := ((P.positions.getD i posDefault).avgCost *
                    (P.positions.getD i posDefault).shares + p * s) /
                  ((P.positions.getD i posDefault).shares + s)
                shares := (P.positions.getD i posDefault).shares + s
                currentPrice := p }
            trades := P.trades ++ [mkTrade sym .buy s p dn rid] } } := by
  simp [executeTradeValid, hfind, hc]

theorem executeTradeValid_buy_new (P : Portfolio) (sym : String)
    (s p : ℚ) (dn : Int) (rid : String)
    (hfind : P.positions.findIdx? (fun q => q.symbol == sym) = none)
    (hc : ¬ P.cash < s * p) :
    executeTradeValid P sym .buy s p dn rid =
      { success := true
        error := none
        portfolio :=
          { P with
            cash := P.cash - s * p
            positions := P.positions ++
              [{ symbol := sym, shares := s, avgCost := p, currentPrice := p }]
            trades := P.trades ++ [mkTrade sym .buy s p dn rid] } } := by
  simp [executeTradeValid, hfind, hc]

theorem executeTradeValid_sell_none (P : Portfolio) (sym : String)
    (s p : ℚ) (dn : Int) (rid : String)
    (hfind : P.positions.findIdx? (fun q => q.symbol == sym) = none) :
    executeTradeValid P sym .sell s p dn rid =
      { success := false
        error := some ("Insufficient shares. Have 0, trying to sell " ++ toString s)
        portfolio := P } := by
  simp [executeTradeValid, hfind]

theorem executeTradeValid_sell_short (P : Portfolio) (sym : String)
    (s p : ℚ) (dn : Int) (rid : String) (i : Nat)
    (hfind : P.positions.findIdx? (fun q => q.symbol == sym) = some i)
    (hlt : (P.positions.getD i posDefault).shares < s) :
    executeTradeValid P sym .sell s p dn rid =
      { success := false
        error := some ("Insufficient shares. Have " ++
          toString (P.positions.getD i posDefault).shares ++
          ", trying to sell " ++ toString s)
        portfolio := P } := by
  simp only [List.getD_eq_getElem?_getD] at hlt
  simp [executeTradeValid, hfind, hlt]

theorem executeTradeValid_sell_all (P : Portfolio) (sym : String)
    (s p : ℚ) (dn : Int) (rid : String) (i : Nat)
    (hfind : P.positions.findIdx? (fun q => q.symbol == sym) = some i)
    (heq : (P.positions.getD i posDefault).shares = s) :
    executeTradeValid P sym .sell s p dn rid =
      { success := true
        error := none
        portfolio :=
          { P with
            cash := P.cash + s * p
            positions := P.positions.eraseIdx i
            trades := P.trades ++ [mkTrade sym .sell s p dn rid] } } := by
  simp only [List.getD_eq_getElem?_getD] at heq
  simp [executeTradeValid, hfind, heq, lt_irrefl]

theorem executeTradeValid_sell_part (P : Portfolio) (sym : String)
    (s p : ℚ) (dn : Int) (rid : String) (i : Nat)
    (hfind : P.positions.findIdx? (fun q => q.symbol == sym) = some i)
    (hlt : s < (P.positions.getD i posDefault).shares) :
    executeTradeValid P sym .sell s p dn rid =
      { success := true
        error := none
        portfolio :=
          { P with
            cash := P.cash + s * p
            positions := P.positions.set i
              { P.positions.getD i posDefault with
                shares := (P.positions.getD i posDefault).shares - s
                currentPrice := p }
            trades := P.trades ++ [mkTrade sym .sell s p dn rid] } } := by
  simp only [List.getD_eq_getElem?_getD] at hlt
  simp [executeTradeValid, hfind, not_lt.mpr hlt.le, hlt.ne']

theorem executeTrade_invalid_shares (P : Portfolio) (sym : String) (ty : TradeType)
    (sh pr : JSNum) (dn : Int) (rid : String)
    (h : ∀ s : ℚ, sh = .num s → s ≤ 0 ∨ ¬ s.den = 1) :
    executeTrade P sym ty sh pr dn rid =
      { success := false, error := some "Shares must be a positive integer"
        portfolio := P } := by
  cases sh with
  | num s =>
    cases pr <;> simp [executeTrade, h s rfl]
  | nan => cases pr <;> rfl
  | inf => cases pr <;> rfl
  | negInf => cases pr <;> rfl

theorem executeTrade_invalid_price (P : Portfolio) (sym : String) (ty : TradeType)
    (s : ℚ) (pr : JSNum) (dn : Int) (rid : String)
    (hs : 0 < s) (hd : s.den = 1)
    (h : ∀ p : ℚ, pr = .num p → p ≤ 0) :
    executeTrade P sym ty (.num s) pr dn rid =
      { success := false, error := some "Price must be a positive number"
        portfolio := P } := by
  have hguard : ¬ (s ≤ 0 ∨ ¬ s.den = 1) := by simp [not_or, not_le.mpr hs, hd]
  cases pr with
  | num p => simp [executeTrade, hguard, h p rfl]
  | nan => simp [executeTrade, hguard]
  | inf => simp [executeTrade, hguard]
  | negInf => simp [executeTrade, hguard]

/-- C1: a successful buy debits `s*p` and blends or creates the position;
a successful sell credits `s*p`, decrements shares and removes the position
exactly when the remainder is zero; the concrete ledger chain of the spec. -/
theorem C1_executeTrade_trade_semantics :
    (∀ (P : Portfolio) (sym : String) (s p : ℚ) (dn : Int) (rid : String) (i : Nat),
      0 < s → s.den = 1 → 0 < p → s * p ≤ P.cash →
      P.positions.findIdx? (fun q => q.symbol == sym) = some i →
      executeTrade P sym .buy (.num s) (.num p) dn rid =
        { success := true
          error := none
          portfolio :=
            { P with
              cash := P.cash - s * p
              positions := P.positions.set i
                { P.positions.getD i posDefault with
                  avgCost := ((P.positions.getD i posDefault).avgCost *
                      (P.positions.getD i posDefault).shares + p * s) /
                    ((P.positions.getD i posDefault).shares + s)
                  shares := (P.positions.getD i posDefault).shares + s
                  currentPrice := p }
              trades := P.trades ++ [mkTrade sym .buy s p dn rid] } }) ∧
    (∀ (P : Portfolio) (sym : String) (s p : ℚ) (dn : Int) (rid : String),
      0 < s → s.den = 1 → 0 < p → s * p ≤ P.cash →
      P.positions.findIdx? (fun q => q.symbol == sym) = none →
      executeTrade P sym .buy (.num s) (.num p) dn rid =
        { success := true
          error := none
          portfolio :=
            { P with
              cash := P.cash - s * p
              positions := P.positions ++
                [{ symbol := sym, shares := s, avgCost := p, currentPrice := p }]
              trades := P.trades ++ [mkTrade sym .buy s p dn rid] } }) ∧
    (∀ (P : Portfolio) (sym : String) (s p : ℚ) (dn : Int) (rid : String) (i : Nat),
      0 < s → s.den = 1 → 0 < p →
      P.positions.findIdx? (fun q => q.symbol == sym) = some i →
      ((P.positions.getD i posDefault).shares = s →
        executeTrade P sym .sell (.num s) (.num p) dn rid =
          { success := true
            error := none
            portfolio :=
              { P with
                cash := P.cash + s * p
                positions := P.positions.eraseIdx i
                trades := P.trades ++ [mkTrade sym .sell s p dn rid] } }) ∧
      (s < (P.positions.getD i posDefault).shares →
        executeTrade P sym .sell (.num s) (.num p) dn rid =
          { success := true
            error := none
            portfolio :=
              { P with
                cash := P.cash + s * p
                positions := P.positions.set i
                  { P.positions.getD i posDefault with
                    shares := (P.positions.getD i posDefault).shares - s
                    currentPrice := p }
                trades := P.trades ++ [mkTrade sym .sell s p dn rid] } })) ∧
    (exR1.portfolio.cash = 99000 ∧
      exR1.portfolio.positions =
        [{ symbol := "X", shares := 10, avgCost := 100, currentPrice := 100 }] ∧
      exR2.portfolio.cash = 97000 ∧
      exR2.portfolio.positions =
        [{ symbol := "X", shares := 20, avgCost := 150, currentPrice := 200 }] ∧
      exR3.success = true ∧
      exR3.portfolio.cash = 100000 ∧
      exR3.portfolio.positions = []) := by
  refine ⟨?_, ?_, ?_, ?_⟩
  · intro P sym s p dn rid i hs hd hp hc hfind
    rw [executeTrade_valid_eq P sym .buy s p dn rid hs hd hp,
      executeTradeValid_buy_existing P sym s p dn rid i hfind (not_lt.mpr hc)]
  · intro P sym s p dn rid hs hd hp hc hfind
    rw [executeTrade_valid_eq P sym .buy s p dn rid hs hd hp,
      executeTradeValid_buy_new P sym s p dn rid hfind (not_lt.mpr hc)]
  · intro P sym s p dn rid i hs hd hp hfind
    constructor
    · intro heq
      rw [executeTrade_valid_eq P sym .sell s p dn rid hs hd hp,
        executeTradeValid_sell_all P sym s p dn rid i hfind heq]
    · intro hlt
      rw [executeTrade_valid_eq P sym .sell s p dn rid hs hd hp,
        executeTradeValid_sell_part P sym s p dn rid i hfind hlt]
  · refine ⟨?_, ?_, ?_, ?_, ?_, ?_, ?_⟩ <;>
      simp [exR3, exR2, exR1, exP0, executeTrade, executeTradeValid,
        createPortfolio, mkTrade, mkTradeId] <;> norm_num

/-- C2: invalid shares/price, insufficient funds and insufficient shares all
fail with an error message and return the input portfolio itself (so no
state change and no appended trade); the spec's concrete rejected inputs. -/
theorem C2_executeTrade_rejects_invalid :
    (∀ (P : Portfolio) (sym : String) (ty : TradeType) (sh pr : JSNum)
        (dn : Int) (rid : String),
      ¬ validShares sh →
      executeTrade P sym ty sh pr dn rid =
        { success := false, error := some "Shares must be a positive integer"
          portfolio := P }) ∧
    (∀ (P : Portfolio) (sym : String) (ty : TradeType) (sh pr : JSNum)
        (dn : Int) (rid : String),
      validShares sh → ¬ validPrice pr →
      executeTrade P sym ty sh pr dn rid =
        { success := false, error := some "Price must be a positive number"
          portfolio := P }) ∧
    (∀ (P : Portfolio) (sym : String) (s p : ℚ) (dn : Int) (rid : String),
      0 < s → s.den = 1 → 0 < p → P.cash < s * p →
      (executeTrade P sym .buy (.num s) (.num p) dn rid).success = false ∧
      (executeTrade P sym .buy (.num s) (.num p) dn rid).error.isSome = true ∧
      (executeTrade P sym .buy (.num s) (.num p) dn rid).portfolio = P) ∧
    (∀ (P : Portfolio) (sym : String) (s p : ℚ) (dn : Int) (rid : String),
      0 < s → s.den = 1 → 0 < p →
      (P.positions.findIdx? (fun q => q.symbol == sym) = none →
        (executeTrade P sym .sell (.num s) (.num p) dn rid).success = false ∧
        (executeTrade P sym .sell (.num s) (.num p) dn rid).error.isSome = true ∧
        (executeTrade P sym .sell (.num s) (.num p) dn rid).portfolio = P) ∧
      (∀ i : Nat, P.positions.findIdx? (fun q => q.symbol == sym) = some i →
        (P.positions.getD i posDefault).shares < s →
        (executeTrade P sym .sell (.num s) (.num p) dn rid).success = false ∧
        (executeTrade P sym .sell (.num s) (.num p) dn rid).error.isSome = true ∧
        (executeTrade P sym .sell (.num s) (.num p) dn rid).portfolio = P)) ∧
    ((executeTrade exP0 "X" .buy (.num 0) (.num 100) 0 "z" =
        { success := false, error := some "Shares must be a positive integer"
          portfolio := exP0 }) ∧
      (executeTrade exP0 "X" .buy (.num (-5)) (.num 100) 0 "z" =
        { success := false, error := some "Shares must be a positive integer"
          portfolio := exP0 }) ∧
      (executeTrade exP0 "X" .buy (.num (3/2)) (.num 100) 0 "z" =
        { success := false, error := some "Shares must be a positive integer"
          portfolio := exP0 }) ∧
      (executeTrade exP0 "X" .buy .nan (.num 100) 0 "z" =
        { success := false, error := some "Shares must be a positive integer"
          portfolio := exP0 }) ∧
      (executeTrade exP0 "X" .buy .inf (.num 100) 0 "z" =
        { success := false, error := some "Shares must be a positive integer"
          portfolio := exP0 }) ∧
      (executeTrade exP0 "X" .buy (.num 5) (.num 0) 0 "z" =
        { success := false, error := some "Price must be a positive number"
          portfolio := exP0 }) ∧
      (executeTrade exP0 "X" .buy (.num 5) (.num (-50)) 0 "z" =
        { success := false, error := some "Price must be a positive number"
          portfolio := exP0 }) ∧
      (executeTrade exP0 "X" .buy (.num 5) .nan 0 "z" =
        { success := false, error := some "Price must be a positive number"
          portfolio := exP0 })) := by
  refine ⟨?_, ?_, ?_, ?_, ?_⟩
  · intro P sym ty sh pr dn rid h
    refine executeTrade_invalid_shares P sym ty sh pr dn rid ?_
    intro s hseq
    by_contra hcon
    push_neg at hcon
    exact h ⟨s, hseq, hcon.1, hcon.2⟩
  · intro P sym ty sh pr dn rid hv hnp
    obtain ⟨s, rfl, hs, hd⟩ := hv
    refine executeTrade_invalid_price P sym ty s pr dn rid hs hd ?_
    intro p hpeq
    by_contra hcon
    push_neg at hcon
    exact hnp ⟨p, hpeq, hcon⟩
  · intro P sym s p dn rid hs hd hp hc
    rw [executeTrade_valid_eq P sym .buy s p dn rid hs hd hp,
      executeTradeValid_buy_insufficient P sym s p dn rid hc]
    exact ⟨rfl, rfl, rfl⟩
  · intro P sym s p dn rid hs hd hp
    constructor
    · intro hfind
      rw [executeTrade_valid_eq P sym .sell s p dn rid hs hd hp,
        executeTradeValid_sell_none P sym s p dn rid hfind]
      exact ⟨rfl, rfl, rfl⟩
    · intro i hfind hlt
      rw [executeTrade_valid_eq P sym .sell s p dn rid hs hd hp,
        executeTradeValid_sell_short P sym s p dn rid i hfind hlt]
      exact ⟨rfl, rfl, rfl⟩
  · refine ⟨?_, ?_, ?_, ?_, ?_, ?_, ?_, ?_⟩ <;>
      · simp [executeTrade, exP0, createPortfolio]
        try norm_num [Rat.den]

/-- C4: `executeTrade` returns the input portfolio itself on failure; on
success only cash, the traded symbol's position and the trade list change —
`startingCash` and the positions of every other symbol are carried over
unchanged, and the trade history is the old one plus a single record. -/
theorem C4_executeTrade_frame (P : Portfolio) (sym : String) (ty : TradeType)
    (sh pr : JSNum) (dn : Int) (rid : String) :
    ((executeTrade P sym ty sh pr dn rid).success = false →
      (executeTrade P sym ty sh pr dn rid).portfolio = P) ∧
    ((executeTrade P sym ty sh pr dn rid).success = true →
      (executeTrade P sym ty sh pr dn rid).portfolio.startingCash = P.startingCash ∧
      (executeTrade P sym ty sh pr dn rid).portfolio.positions.filter
          (fun q => !(q.symbol == sym)) =
        P.positions.filter (fun q => !(q.symbol == sym)) ∧
      ∃ t, (executeTrade P sym ty sh pr dn rid).portfolio.trades = P.trades ++ [t]) := by
  by_cases hv : ∀ s : ℚ, sh = .num s → s ≤ 0 ∨ ¬ s.den = 1
  · rw [executeTrade_invalid_shares P sym ty sh pr dn rid hv]
    exact ⟨fun _ => rfl, fun h => by simp at h⟩
  · push_neg at hv
    obtain ⟨s, hsh, hs, hd⟩ := hv
    subst hsh
    by_cases hq : ∀ p : ℚ, pr = .num p → p ≤ 0
    · rw [executeTrade_invalid_price P sym ty s pr dn rid hs hd hq]
      exact ⟨fun _ => rfl, fun h => by simp at h⟩
    · push_neg at hq
      obtain ⟨p, hpr, hp⟩ := hq
      subst hpr
      rw [executeTrade_valid_eq P sym ty s p dn rid hs hd hp]
      cases ty with
      | buy =>
        by_cases hc : P.cash < s * p
        · rw [executeTradeValid_buy_insufficient P sym s p dn rid hc]
          exact ⟨fun _ => rfl, fun h => by simp at h⟩
        · cases hfind : P.positions.findIdx? (fun q => q.symbol == sym) with
          | some i =>
            rw [executeTradeValid_buy_existing P sym s p dn rid i hfind hc]
            refine ⟨fun h => by simp at h, fun _ => ⟨rfl, ?_, ⟨_, rfl⟩⟩⟩
            obtain ⟨hget, hsym⟩ := findIdx?_position_spec P.positions sym i hfind
            simp only [List.getD_eq_getElem?_getD] at hsym
            exact filter_set_of_false _ P.positions i _ _ hget
              (by simp [hsym]) (by simp [hsym])
          | none =>
            rw [executeTradeValid_buy_new P sym s p dn rid hfind hc]
            refine ⟨fun h => by simp at h, fun _ => ⟨rfl, ?_, ⟨_, rfl⟩⟩⟩
            simp [List.filter_append]
      | sell =>
        cases hfind : P.positions.findIdx? (fun q => q.symbol == sym) with
        | none =>
          rw [executeTradeValid_sell_none P sym s p dn rid hfind]
          exact ⟨fun _ => rfl, fun h => by simp at h⟩
        | some i =>
          rcases lt_trichotomy (P.positions.getD i posDefault).shares s with hlt | heq | hgt
          · rw [executeTradeValid_sell_short P sym s p dn rid i hfind hlt]
            exact ⟨fun _ => rfl, fun h => by simp at h⟩
          · rw [executeTradeValid_sell_all P sym s p dn rid i hfind heq]
            refine ⟨fun h => by simp at h, fun _ => ⟨rfl, ?_, ⟨_, rfl⟩⟩⟩
            obtain ⟨hget, hsym⟩ := findIdx?_position_spec P.positions sym i hfind
            simp only [List.getD_eq_getElem?_getD] at hsym
            exact filter_eraseIdx_of_false _ P.positions i _ hget (by simp [hsym])
          · rw [executeTradeValid_sell_part P sym s p dn rid i hfind hgt]
            refine ⟨fun h => by simp at h, fun _ => ⟨rfl, ?_, ⟨_, rfl⟩⟩⟩
            obtain ⟨hget, hsym⟩ := findIdx?_position_spec P.positions sym i hfind
            simp only [List.getD_eq_getElem?_getD] at hsym
            exact filter_set_of_false _ P.positions i _ _ hget
              (by simp [hsym]) (by simp [hsym])

/-- The PRNG state after any call is the truncated remainder by 2147483647,
hence below 2147483647. -/
theorem seededState_succ_lt (seed : Int) (n : Nat) :
    seededState seed (n + 1) < 2147483647 := by
  show (seededState seed n * 16807 + 0).tmod 2147483647 < 2147483647
  exact Int.tmod_lt_of_pos _ (by norm_num)

/-- For an in-range seed the state stays in `[1, 2147483646]`: the modulus
2147483647 is coprime to 16807 and cannot divide a state in range. -/
theorem seededState_bounds (seed : Int) (h1 : 1 ≤ seed) (h2 : seed ≤ 2147483646) :
    ∀ n, 1 ≤ seededState seed n ∧ seededState seed n ≤ 2147483646 := by
  have hco : IsCoprime (2147483647 : ℤ) (16807 : ℤ) := by
    have h : Nat.Coprime 2147483647 16807 := by norm_num
    exact_mod_cast Nat.isCoprime_iff_coprime.mpr h
  intro n
  induction n with
  | zero => exact ⟨h1, h2⟩
  | succ n ih =>
    obtain ⟨hlo, hhi⟩ := ih
    have hs : seededState seed (n + 1) =
        (seededState seed n * 16807 + 0).tmod 2147483647 := rfl
    have hdivpos : (0 : ℤ) < seededState seed n * 16807 + 0 := by positivity
    have hnn : 0 ≤ (seededState seed n * 16807 + 0).tmod 2147483647 :=
      Int.tmod_nonneg _ (le_of_lt hdivpos)
    have hlt : (seededState seed n * 16807 + 0).tmod 2147483647 < 2147483647 :=
      Int.tmod_lt_of_pos _ (by norm_num)
    have hne : (seededState seed n * 16807 + 0).tmod 2147483647 ≠ 0 := by
      intro h0
      have htm : (seededState seed n * 16807 + 0).tmod 2147483647 =
          (seededState seed n * 16807 + 0) % 2147483647 :=
        Int.tmod_eq_emod (le_of_lt hdivpos) (by norm_num)
      rw [htm] at h0
      have hdvd : (2147483647 : ℤ) ∣ seededState seed n * 16807 + 0 :=
        Int.dvd_of_emod_eq_zero h0
      rw [add_zero] at hdvd
      have hdvds : (2147483647 : ℤ) ∣ seededState seed n :=
        hco.dvd_of_dvd_mul_right hdvd
      have := Int.le_of_dvd (by linarith) hdvds
      linarith
    constructor
    · rw [hs]; omega
    · rw [hs]; omega

/-- C5 counterexample: with integer seed 0 the first value is
`-1/2147483646`, which does not lie in the open interval (0,1). -/
theorem C5_seed_zero_counterexample :
    seededVal 0 0 = -(1 / 2147483646) ∧
    ¬ (0 < seededVal 0 0 ∧ seededVal 0 0 < 1) := by
  have h : seededVal 0 0 = srValue (((0 : ℤ) * 16807 + 0).tmod 2147483647) := rfl
  have h2 : seededVal 0 0 = -(1 / 2147483646) := by
    rw [h]
    norm_num [srValue]
  exact ⟨h2, by rw [h2]; norm_num⟩

/-- C5 amended: the sequence is a pure function of the seed (re-creating a
generator with the same seed reproduces it call-for-call); every value is
strictly below 1 for every integer seed; and for seeds in
`[1, 2147483646]` every value lies in `[0, 1)` — the lower end is closed,
not open as claimed, and seeds outside that range can produce negative
values (see the seed-0 counterexample). -/
theorem C5_prng_amended :
    (∀ s₁ s₂ : Int, s₁ = s₂ → ∀ n, seededVal s₁ n = seededVal s₂ n) ∧
    (∀ (seed : Int) (n : Nat), seededVal seed n < 1) ∧
    (∀ seed : Int, 1 ≤ seed → seed ≤ 2147483646 → ∀ n,
      0 ≤ seededVal seed n ∧ seededVal seed n < 1) := by
  have hlt1 : ∀ (seed : Int) (n : Nat), seededVal seed n < 1 := by
    intro seed n
    have hlt := seededState_succ_lt seed n
    unfold seededVal srValue
    rw [div_lt_one (by norm_num)]
    have : (seededState seed (n + 1) : ℚ) < 2147483647 := by exact_mod_cast hlt
    linarith
  refine ⟨fun s₁ s₂ h n => by rw [h], hlt1, ?_⟩
  intro seed hs1 hs2 n
  refine ⟨?_, hlt1 seed n⟩
  have hb := (seededState_bounds seed hs1 hs2 (n + 1)).1
  unfold seededVal srValue
  apply div_nonneg _ (by norm_num)
  have : (1 : ℚ) ≤ (seededState seed (n + 1) : ℚ) := by exact_mod_cast hb
  linarith

theorem round2_mono {a b : ℚ} (h : a ≤ b) : round2 a ≤ round2 b := by
  unfold round2
  have : a * 100 + 1/2 ≤ b * 100 + 1/2 := by linarith
  have hf := Int.floor_le_floor this
  have : ((Int.floor (a * 100 + 1/2) : ℚ)) ≤ ((Int.floor (b * 100 + 1/2) : ℚ)) := by
    exact_mod_cast hf
  linarith

theorem round2_zero : round2 0 = 0 := by
  unfold round2
  norm_num

theorem round2_hundred : round2 100 = 100 := by
  unfold round2
  norm_num

theorem round2_nonneg {a : ℚ} (h : 0 ≤ a) : 0 ≤ round2 a := by
  have := round2_mono h
  rwa [round2_zero] at this

theorem round2_le_hundred {a : ℚ} (h : a ≤ 100) : round2 a ≤ 100 := by
  have := round2_mono h
  rwa [round2_hundred] at this

/-- The raw RSI formula is within [0, 100] for a nonnegative ratio. -/
theorem rsi_formula_bounds (rs : ℚ) (h : 0 ≤ rs) :
    0 ≤ 100 - 100 / (1 + rs) ∧ 100 - 100 / (1 + rs) ≤ 100 := by
  have h1 : (0 : ℚ) < 1 + rs := by linarith
  constructor
  · have : 100 / (1 + rs) ≤ 100 := by
      rw [div_le_iff₀ h1]
      nlinarith
    linarith
  · have : 0 ≤ 100 / (1 + rs) := by positivity
    linarith

/-- The components of one Wilder step, spelled out. -/
theorem rsiStep_def (p g l c : ℚ) : rsiStep p g l c =
    ((g * (p - 1) + (if 0 < c then c else 0)) / p,
     (l * (p - 1) + (if c < 0 then |c| else 0)) / p,
     if (l * (p - 1) + (if c < 0 then |c| else 0)) / p = 0 then 100
     else 100 - 100 / (1 + ((g * (p - 1) + (if 0 < c then c else 0)) / p) /
       ((l * (p - 1) + (if c < 0 then |c| else 0)) / p))) := rfl

/-- One Wilder step keeps the averages nonnegative and its raw value in
[0, 100]. -/
theorem rsiStep_bounds (p g l c : ℚ) (hp : 1 ≤ p) (hg : 0 ≤ g) (hl : 0 ≤ l) :
    0 ≤ (rsiStep p g l c).1 ∧ 0 ≤ (rsiStep p g l c).2.1 ∧
    0 ≤ (rsiStep p g l c).2.2 ∧ (rsiStep p g l c).2.2 ≤ 100 := by
  have hp0 : (0 : ℚ) < p := by linarith
  have hgain : 0 ≤ (if 0 < c then c else 0) := by
    by_cases h : 0 < c
    · simp [h]; linarith
    · simp [h]
  have hloss : 0 ≤ (if c < 0 then |c| else 0) := by
    by_cases h : c < 0 <;> simp [h]
  have hg' : 0 ≤ (g * (p - 1) + (if 0 < c then c else 0)) / p := by
    apply div_nonneg _ (le_of_lt hp0)
    have : 0 ≤ g * (p - 1) := mul_nonneg hg (by linarith)
    linarith
  have hl' : 0 ≤ (l * (p - 1) + (if c < 0 then |c| else 0)) / p := by
    apply div_nonneg _ (le_of_lt hp0)
    have : 0 ≤ l * (p - 1) := mul_nonneg hl (by linarith)
    linarith
  rw [rsiStep_def]
  refine ⟨hg', hl', ?_, ?_⟩
  · by_cases hz : (l * (p - 1) + (if c < 0 then |c| else 0)) / p = 0
    · simp [hz]
    · simp only [hz, if_false]
      exact (rsi_formula_bounds _ (div_nonneg hg' hl')).1
  · by_cases hz : (l * (p - 1) + (if c < 0 then |c| else 0)) / p = 0
    · simp [hz]
    · simp only [hz, if_false]
      exact (rsi_formula_bounds _ (div_nonneg hg' hl')).2

/-- Every value the Wilder loop emits is within [0, 100]. -/
theorem rsiLoop_bounds (p : ℚ) (hp : 1 ≤ p) :
    ∀ (tch : List (Int × ℚ)) (g l : ℚ), 0 ≤ g → 0 ≤ l →
      ∀ v ∈ rsiLoop p g l tch, 0 ≤ v.value ∧ v.value ≤ 100 := by
  intro tch
  induction tch with
  | nil => intro g l _ _ v hv; simp [rsiLoop] at hv
  | cons tc rest ih =>
    intro g l hg hl v hv
    obtain ⟨h1, h2, h3, h4⟩ := rsiStep_bounds p g l tc.2 hp hg hl
    simp only [rsiLoop, List.mem_cons] at hv
    rcases hv with rfl | hv
    · exact ⟨round2_nonneg h3, round2_le_hundred h4⟩
    · exact ih (rsiStep p g l tc.2).1 (rsiStep p g l tc.2).2.1 h1 h2 v hv

/-- The seed accumulation keeps both components nonnegative. -/
theorem rsiSeed_nonneg (l : List (Int × ℚ)) :
    ∀ a : ℚ × ℚ, 0 ≤ a.1 → 0 ≤ a.2 →
      0 ≤ (l.foldl (fun (a : ℚ × ℚ) tc =>
        if 0 < tc.2 then (a.1 + tc.2, a.2) else (a.1, a.2 + |tc.2|)) a).1 ∧
      0 ≤ (l.foldl (fun (a : ℚ × ℚ) tc =>
        if 0 < tc.2 then (a.1 + tc.2, a.2) else (a.1, a.2 + |tc.2|)) a).2 := by
  induction l with
  | nil => intro a h1 h2; exact ⟨h1, h2⟩
  | cons tc rest ih =>
    intro a h1 h2
    simp only [List.foldl_cons]
    split
    · exact ih _ (by simp; linarith) (by simpa)
    · exact ih _ (by simpa) (by simp; positivity)

/-- C8 counterexample: on two rising closes with period 1 the single change
is +1 (so the seed average loss is 0), yet the first RSI value is
`round2(100 - 100/101) = 99.01`, not 100 — the seed entry substitutes
`rs = 100` instead of short-circuiting to 100 as the loop does. -/
theorem C8_rsi_seed_counterexample :
    timedChanges [⟨0, 1⟩, ⟨1, 2⟩] = [(1, 1)] ∧
    calculateRSI [⟨0, 1⟩, ⟨1, 2⟩] 1 = [⟨1, 9901/100⟩] ∧
    (9901 / 100 : ℚ) ≠ 100 := by
  refine ⟨by simp [timedChanges]; norm_num, ?_, by norm_num⟩
  simp [calculateRSI, timedChanges, rsiLoop, round2]
  norm_num

/-- C8 amended: every RSI value lies in [0, 100]; in the Wilder loop a zero
smoothed average loss yields exactly 100; but the seed value with zero seed
average loss is `round2(100 - 100/101) = 99.01`, not 100. -/
theorem C8_rsi_amended :
    (∀ (data : List ICandle) (period : Int), 1 ≤ period →
      ∀ v ∈ calculateRSI data period, 0 ≤ v.value ∧ v.value ≤ 100) ∧
    (∀ p g l c : ℚ, (rsiStep p g l c).2.1 = 0 →
      round2 (rsiStep p g l c).2.2 = 100) ∧
    calculateRSI [⟨0, 1⟩, ⟨1, 2⟩] 1 = [⟨1, 9901/100⟩] := by
  refine ⟨?_, ?_, ?_⟩
  · intro data period hp v hv
    unfold calculateRSI at hv
    by_cases hguard : period ≤ 0 ∨ (data.length : Int) < period + 1
    · rw [if_pos hguard] at hv
      simp at hv
    · rw [if_neg hguard] at hv
      have hp1 : (1 : ℚ) ≤ (period.toNat : ℚ) := by
        have : 1 ≤ period.toNat := by omega
        exact_mod_cast this
      have hppos : (0 : ℚ) < (period.toNat : ℚ) := by linarith
      obtain ⟨hsg, hsl⟩ := rsiSeed_nonneg
        ((timedChanges data).take period.toNat) (0, 0) le_rfl le_rfl
      have hgq : 0 ≤ (((timedChanges data).take period.toNat).foldl
          (fun (a : ℚ × ℚ) tc =>
            if 0 < tc.2 then (a.1 + tc.2, a.2) else (a.1, a.2 + |tc.2|)) (0, 0)).1 /
          (period.toNat : ℚ) := div_nonneg hsg (le_of_lt hppos)
      have hlq : 0 ≤ (((timedChanges data).take period.toNat).foldl
          (fun (a : ℚ × ℚ) tc =>
            if 0 < tc.2 then (a.1 + tc.2, a.2) else (a.1, a.2 + |tc.2|)) (0, 0)).2 /
          (period.toNat : ℚ) := div_nonneg hsl (le_of_lt hppos)
      simp only [List.mem_cons] at hv
      rcases hv with rfl | hv
      · dsimp only
        constructor
        · apply round2_nonneg
          refine (rsi_formula_bounds _ ?_).1
          split
          · norm_num
          · exact div_nonneg hgq hlq
        · apply round2_le_hundred
          refine (rsi_formula_bounds _ ?_).2
          split
          · norm_num
          · exact div_nonneg hgq hlq
      · exact rsiLoop_bounds (period.toNat : ℚ) hp1 _ _ _ hgq hlq v hv
  · intro p g l c hz
    rw [rsiStep_def] at hz ⊢
    simp only at hz
    simp [hz, round2_hundred]
  · simp [calculateRSI, timedChanges, rsiLoop, round2]
    norm_num

/-- The rolling SMA loop emits one point per paired element. -/
theorem smaLoop_length (p : Nat) :
    ∀ (sum : ℚ) (rest old : List ICandle),
      (smaLoop p sum rest old).length = Min.min rest.length old.length := by
  intro sum rest
  induction rest generalizing sum with
  | nil => intro old; simp [smaLoop]
  | cons c rs ih =>
    intro old
    cases old with
    | nil => simp [smaLoop]
    | cons o os =>
      simp [smaLoop, ih]
      omega

/-- C9: the SMA length law for sufficient data, and the empty-result guard
of all four list-valued indicators for `period ≤ 0` or insufficient data. -/
theorem C9_indicator_guards :
    (∀ (data : List ICandle) (period : Int), 0 < period →
      period ≤ (data.length : Int) →
      ((calculateSMA data period).length : Int) = (data.length : Int) - period + 1) ∧
    (∀ (data : List ICandle) (period : Int),
      period ≤ 0 ∨ (data.length : Int) < period →
      calculateSMA data period = [] ∧
      calculateEMA data period = [] ∧
      calculateRSI data period = [] ∧
      ∀ (env : MathEnv) (sdev : ℚ),
        calculateBollingerBands env data period sdev = ⟨[], [], []⟩) := by
  constructor
  · intro data period h0 hlen
    have hguard : ¬ (period ≤ 0 ∨ (data.length : Int) < period) := by
      push_neg
      omega
    unfold calculateSMA
    rw [if_neg hguard]
    simp only [List.length_cons, smaLoop_length, List.length_drop]
    have htn : (period.toNat : Int) = period := Int.toNat_of_nonneg (le_of_lt h0)
    omega
  · intro data period h
    have hrs : period ≤ 0 ∨ (data.length : Int) < period + 1 := by omega
    refine ⟨?_, ?_, ?_, ?_⟩
    · unfold calculateSMA; rw [if_pos h]
    · unfold calculateEMA; rw [if_pos h]
    · unfold calculateRSI; rw [if_pos hrs]
    · intro env sdev; unfold calculateBollingerBands; rw [if_pos h]

theorem weekdayCount_zero (st : Int) : weekdayCount st 0 = 0 := rfl

theorem weekdayCount_succ (st : Int) (d : Nat) :
    weekdayCount st (d + 1) = (if isWeekend st then 0 else 1) + weekdayCount (st + 1) d := rfl

/-- Unfolding of one loop iteration. -/
theorem genLoop_succ (env : MathEnv) (vol trend : ℚ) (d : Nat) (day : Int)
    (s : Int) (price : JSNum) :
    genLoop env vol trend (d + 1) day s price =
      if isWeekend day then genLoop env vol trend d (day + 1) s price
      else (genDay env vol trend day s price).1 ::
        genLoop env vol trend d (day + 1) (genDay env vol trend day s price).2.1
          (genDay env vol trend day s price).2.2 := rfl

/-- The pushed candle is dated on the loop's current day. -/
theorem genDay_time (env : MathEnv) (vol trend : ℚ) (day : Int) (s : Int)
    (price : JSNum) : (genDay env vol trend day s price).1.time = day := rfl

/-- Splitting a day range splits the weekday count. -/
theorem weekdayCount_add (a : Nat) :
    ∀ (st : Int) (b : Nat),
      weekdayCount st (a + b) = weekdayCount st a + weekdayCount (st + (a : Int)) b := by
  induction a with
  | zero => intro st b; simp [weekdayCount_zero]
  | succ a ih =>
    intro st b
    have h1 : a + 1 + b = (a + b) + 1 := by omega
    rw [h1, weekdayCount_succ, weekdayCount_succ, ih (st + 1) b]
    have h2 : st + 1 + (a : Int) = st + ((a : Int) + 1) := by ring
    rw [h2]
    push_cast
    ring_nf

set_option maxHeartbeats 1000000 in
/-- Any seven consecutive days contain exactly five weekdays. -/
theorem weekdayCount_week (st : Int) : weekdayCount st 7 = 5 := by
  have h : weekdayCount st 7 =
      (if isWeekend st then 0 else 1) + ((if isWeekend (st + 1) then 0 else 1) +
      ((if isWeekend (st + 1 + 1) then 0 else 1) +
      ((if isWeekend (st + 1 + 1 + 1) then 0 else 1) +
      ((if isWeekend (st + 1 + 1 + 1 + 1) then 0 else 1) +
      ((if isWeekend (st + 1 + 1 + 1 + 1 + 1) then 0 else 1) +
      ((if isWeekend (st + 1 + 1 + 1 + 1 + 1 + 1) then 0 else 1) + 0)))))) := rfl
  rw [h]
  simp only [isWeekend, dowJS, decide_eq_true_eq]
  split_ifs <;> omega

/-- Full weeks contribute five weekdays each. -/
theorem weekdayCount_weeks (k : Nat) :
    ∀ st : Int, weekdayCount st (7 * k) = 5 * k := by
  induction k with
  | zero => intro st; simp [weekdayCount_zero]
  | succ k ih =>
    intro st
    have h : 7 * (k + 1) = 7 + 7 * k := by omega
    rw [h, weekdayCount_add 7 st (7 * k), weekdayCount_week, ih]
    omega

/-- 400 consecutive days hold 285 or 286 weekdays (57 full weeks plus one
day). -/
theorem weekdayCount_400 (st : Int) :
    285 ≤ weekdayCount st 400 ∧ weekdayCount st 400 ≤ 286 := by
  have hsplit := weekdayCount_add 399 st 1
  rw [show (399 : ℕ) + 1 = 400 from rfl] at hsplit
  have h399 : weekdayCount st 399 = 285 := by
    have h := weekdayCount_weeks 57 st
    norm_num at h
    exact h
  have hone : weekdayCount (st + ((399 : ℕ) : Int)) 1 ≤ 1 := by
    rw [weekdayCount_succ, weekdayCount_zero]
    split <;> omega
  omega

/-- The generator emits one candle per weekday, independently of the drawn
values. -/
theorem genLoop_length (env : MathEnv) (vol trend : ℚ) :
    ∀ (d : Nat) (day : Int) (s : Int) (price : JSNum),
      (genLoop env vol trend d day s price).length = weekdayCount day d := by
  intro d
  induction d with
  | zero => intro day s price; rfl
  | succ d ih =>
    intro day s price
    rw [weekdayCount_succ, genLoop_succ]
    by_cases h : isWeekend day
    · rw [if_pos h, if_pos h, ih]
      omega
    · rw [if_neg h, if_neg h, List.length_cons, ih]
      omega

/-- Every emitted candle is dated on a non-weekend day at or after the
loop's current day. -/
theorem genLoop_times (env : MathEnv) (vol trend : ℚ) :
    ∀ (d : Nat) (day : Int) (s : Int) (price : JSNum),
      ∀ c ∈ genLoop env vol trend d day s price,
        day ≤ c.time ∧ isWeekend c.time = false := by
  intro d
  induction d with
  | zero => intro day s price c hc; simp [genLoop] at hc
  | succ d ih =>
    intro day s price c hc
    rw [genLoop_succ] at hc
    by_cases h : isWeekend day
    · rw [if_pos h] at hc
      obtain ⟨h1, h2⟩ := ih (day + 1) s price c hc
      exact ⟨by omega, h2⟩
    · rw [if_neg h] at hc
      simp only [List.mem_cons] at hc
      rcases hc with rfl | hc
      · rw [genDay_time]
        exact ⟨le_refl _, by simpa using h⟩
      · obtain ⟨h1, h2⟩ := ih (day + 1) _ _ c hc
        exact ⟨by omega, h2⟩

/-- Candle times are strictly increasing. -/
theorem genLoop_pairwise (env : MathEnv) (vol trend : ℚ) :
    ∀ (d : Nat) (day : Int) (s : Int) (price : JSNum),
      (genLoop env vol trend d day s price).Pairwise (fun a b => a.time < b.time) := by
  intro d
  induction d with
  | zero => intro day s price; simp [genLoop]
  | succ d ih =>
    intro day s price
    rw [genLoop_succ]
    by_cases h : isWeekend day
    · rw [if_pos h]; exact ih (day + 1) s price
    · rw [if_neg h]
      refine List.Pairwise.cons ?_ (ih (day + 1) _ _)
      intro c hc
      have h1 := (genLoop_times env vol trend d (day + 1) _ _ c hc).1
      rw [genDay_time]
      omega

/-- `lookup` hits are members of the association list. -/
theorem lookup_mem {β : Type} (sym : String) (v : β) :
    ∀ l : List (String × β), l.lookup sym = some v → (sym, v) ∈ l := by
  intro l
  induction l with
  | nil => intro h; simp at h
  | cons e rest ih =>
    obtain ⟨k, w⟩ := e
    intro h
    rw [List.lookup_cons] at h
    by_cases hbe : (sym == k) = true
    · simp only [hbe] at h
      simp only [Option.some.injEq] at h
      have hk : sym = k := by simpa using hbe
      subst hk
      subst h
      exact List.mem_cons_self _ _
    · rw [Bool.not_eq_true] at hbe
      simp only [hbe] at h
      exact List.mem_cons_of_mem _ (ih h)

theorem cacheWF_empty (env : MathEnv) (now : Int) : cacheWF env now [] := by
  constructor
  · simp [MAX_CACHE_SIZE]
  · simp

/-- Under the invariant, the full-series read is the canonical generated
series whether it hits or misses. -/
theorem getFullCandleData_fst (env : MathEnv) (now : Int) (cache : CandleCache)
    (sym : String) (h : cacheWF env now cache) :
    (getFullCandleData env now cache sym).1 = fullSeries env now sym := by
  unfold getFullCandleData
  cases hl : cache.lookup sym with
  | some v =>
    simp only []
    exact h.2 (sym, v) (lookup_mem sym v cache hl)
  | none => simp only []

/-- Each cache operation preserves the invariant. -/
theorem applyOp_WF (env : MathEnv) (now : Int) (cache : CandleCache)
    (op : CacheOp) (h : cacheWF env now cache) :
    cacheWF env now (applyOp env now cache op) := by
  cases op with
  | clear => exact cacheWF_empty env now
  | get sym tf =>
    show cacheWF env now (getCandleData env now cache sym tf).2
    unfold getCandleData getFullCandleData
    cases hl : cache.lookup sym with
    | some v => simpa using h
    | none =>
      simp only []
      constructor
      · by_cases hc : MAX_CACHE_SIZE ≤ cache.length
        · rw [if_pos hc]
          simp only [List.length_append, List.length_drop, List.length_cons,
            List.length_nil]
          have := h.1
          unfold MAX_CACHE_SIZE at *
          omega
        · rw [if_neg hc]
          simp only [List.length_append, List.length_cons, List.length_nil]
          unfold MAX_CACHE_SIZE at *
          omega
      · intro e he
        have he' : e ∈ (if MAX_CACHE_SIZE ≤ cache.length then cache.drop 1 else cache)
            ∨ e ∈ [(sym, fullSeries env now sym)] := List.mem_append.mp he
        rcases he' with he' | he'
        · have hec : e ∈ cache := by
            by_cases hc : MAX_CACHE_SIZE ≤ cache.length
            · rw [if_pos hc] at he'
              exact List.mem_of_mem_drop he'
            · rwa [if_neg hc] at he'
          exact h.2 e hec
        · simp only [List.mem_singleton] at he'
          subst he'
          rfl

/-- Any session starting from the empty cache stays well-formed. -/
theorem runOps_WF (env : MathEnv) (now : Int) :
    ∀ (ops : List CacheOp) (cache : CandleCache), cacheWF env now cache →
      cacheWF env now (runOps env now cache ops) := by
  intro ops
  induction ops with
  | nil => intro cache h; exact h
  | cons op rest ih =>
    intro cache h
    exact ih _ (applyOp_WF env now cache op h)

theorem jsSliceLast_length_of_le {α : Type} (l : List α) (n : Nat)
    (h : n ≤ l.length) : (jsSliceLast l n).length = n := by
  simp [jsSliceLast]
  omega

theorem jsSliceLast_of_ge {α : Type} (l : List α) (n : Nat)
    (h : l.length ≤ n) : jsSliceLast l n = l := by
  unfold jsSliceLast
  have h0 : l.length - n = 0 := by omega
  rw [h0, List.drop_zero]

/-- C7: the candle cache stays within its 32-entry capacity along every
session; at capacity a miss evicts exactly the oldest-inserted (head)
entry; and two `getCandleData` calls with the same symbol and timeframe
return content-identical arrays after any two op sequences from the empty
cache — more than 32 intervening symbols included. -/
theorem C7_cache_bounded_fifo_consistent (env : MathEnv) (now : Int) :
    (∀ ops : List CacheOp,
      cacheWF env now (runOps env now [] ops) ∧
      (runOps env now [] ops).length ≤ MAX_CACHE_SIZE) ∧
    (∀ (cache : CandleCache) (sym : String),
      cache.lookup sym = none → MAX_CACHE_SIZE ≤ cache.length →
      (getFullCandleData env now cache sym).2 =
        cache.drop 1 ++ [(sym, fullSeries env now sym)]) ∧
    (∀ (ops₁ ops₂ : List CacheOp) (sym : String) (tf : ChartTimeframe),
      (getCandleData env now (runOps env now [] ops₁) sym tf).1 =
      (getCandleData env now (runOps env now [] ops₂) sym tf).1) := by
  refine ⟨?_, ?_, ?_⟩
  · intro ops
    have h := runOps_WF env now ops [] (cacheWF_empty env now)
    exact ⟨h, h.1⟩
  · intro cache sym hl hc
    unfold getFullCandleData
    rw [hl]
    simp only [if_pos hc]
  · intro ops₁ ops₂ sym tf
    have h₁ := runOps_WF env now ops₁ [] (cacheWF_empty env now)
    have h₂ := runOps_WF env now ops₂ [] (cacheWF_empty env now)
    have hval : ∀ cache : CandleCache, cacheWF env now cache →
        (getCandleData env now cache sym tf).1 =
          jsSliceLast (fullSeries env now sym) (TIMEFRAME_DAYS tf) := by
      intro cache h
      show (jsSliceLast (getFullCandleData env now cache sym).1 (TIMEFRAME_DAYS tf), _).1 = _
      rw [getFullCandleData_fst env now cache sym h]
    rw [hval _ h₁, hval _ h₂]

/-- The full 400-day generated series always holds 285 or 286 weekday
candles. -/
theorem fullSeries_length (env : MathEnv) (now : Int) (sym : String) :
    285 ≤ (fullSeries env now sym).length ∧ (fullSeries env now sym).length ≤ 286 := by
  unfold fullSeries generateCandlestickData
  simp only [genLoop_length]
  exact weekdayCount_400 _

/-- C10: `getCandleData` returns exactly 30/90/180 candles for 1M/3M/6M,
but for 1Y it returns the entire weekday-filtered 400-day series — between
284 and 286 candles (in fact 285 or 286), strictly fewer than 365. -/
theorem C10_timeframe_slice_lengths (env : MathEnv) (now : Int) :
    (∀ sym : String,
      285 ≤ (fullSeries env now sym).length ∧ (fullSeries env now sym).length ≤ 286) ∧
    (∀ (cache : CandleCache) (sym : String), cacheWF env now cache →
      (getCandleData env now cache sym .m1).1.length = 30 ∧
      (getCandleData env now cache sym .m3).1.length = 90 ∧
      (getCandleData env now cache sym .m6).1.length = 180 ∧
      (getCandleData env now cache sym .y1).1 = fullSeries env now sym ∧
      284 ≤ (getCandleData env now cache sym .y1).1.length ∧
      (getCandleData env now cache sym .y1).1.length < 365) := by
  refine ⟨fullSeries_length env now, ?_⟩
  intro cache sym h
  obtain ⟨hlo, hhi⟩ := fullSeries_length env now sym
  have hfst : ∀ tf : ChartTimeframe, (getCandleData env now cache sym tf).1 =
      jsSliceLast (fullSeries env now sym) (TIMEFRAME_DAYS tf) := by
    intro tf
    show (jsSliceLast (getFullCandleData env now cache sym).1 (TIMEFRAME_DAYS tf), _).1 = _
    rw [getFullCandleData_fst env now cache sym h]
  have hy : jsSliceLast (fullSeries env now sym) (TIMEFRAME_DAYS .y1) =
      fullSeries env now sym := by
    apply jsSliceLast_of_ge
    show (fullSeries env now sym).length ≤ 365
    omega
  refine ⟨?_, ?_, ?_, ?_, ?_, ?_⟩
  · rw [hfst .m1]; exact jsSliceLast_length_of_le _ _ (by show 30 ≤ _; omega)
  · rw [hfst .m3]; exact jsSliceLast_length_of_le _ _ (by show 90 ≤ _; omega)
  · rw [hfst .m6]; exact jsSliceLast_length_of_le _ _ (by show 180 ≤ _; omega)
  · rw [hfst .y1, hy]
  · rw [hfst .y1, hy]; omega
  · rw [hfst .y1, hy]; omega

theorem pos_of_round2_pos {q : ℚ} (h : 0 < round2 q) : 0 < q := by
  by_contra hq
  push_neg at hq
  have := round2_mono hq
  rw [round2_zero] at this
  linarith

theorem monotone_round2 : Monotone round2 := fun _ _ h => round2_mono h

/-- Core inequality behind the candle wick construction: whenever the
stored (rounded) open and close are positive finite numbers, the stored
high is at least their maximum and the stored low at most their minimum,
whatever the normal draw `N`, the parameters and the wick draws were. -/
theorem wick_core (openJ N : JSNum) (vol trend w3 w4 : ℚ) (a b : ℚ)
    (hopen : jsToFixed2 openJ = .num a) (ha : 0 < a)
    (hclose : jsToFixed2 (JSNum.mul openJ (JSNum.add (.num 1)
      (JSNum.add (.num trend) (JSNum.mul N (.num vol))))) = .num b) (hb : 0 < b) :
    JSNum.leb (JSNum.max (jsToFixed2 openJ) (jsToFixed2 (JSNum.mul openJ (JSNum.add (.num 1)
        (JSNum.add (.num trend) (JSNum.mul N (.num vol)))))))
      (jsToFixed2 (JSNum.mul (JSNum.max openJ (JSNum.mul openJ (JSNum.add (.num 1)
        (JSNum.add (.num trend) (JSNum.mul N (.num vol))))))
        (JSNum.add (.num 1) (JSNum.abs (JSNum.mul (JSNum.mul (JSNum.mul N (.num vol))
          (.num (1/2))) (.num w3)))))) = true ∧
    JSNum.leb (jsToFixed2 (JSNum.mul (JSNum.min openJ (JSNum.mul openJ (JSNum.add (.num 1)
        (JSNum.add (.num trend) (JSNum.mul N (.num vol))))))
        (JSNum.sub (.num 1) (JSNum.abs (JSNum.mul (JSNum.mul (JSNum.mul N (.num vol))
          (.num (1/2))) (.num w4))))))
      (JSNum.min (jsToFixed2 openJ) (jsToFixed2 (JSNum.mul openJ (JSNum.add (.num 1)
        (JSNum.add (.num trend) (JSNum.mul N (.num vol))))))) = true := by
  cases openJ with
  | nan => simp [jsToFixed2] at hopen
  | inf => simp [jsToFixed2] at hopen
  | negInf => simp [jsToFixed2] at hopen
  | num a0 =>
  simp only [jsToFixed2, JSNum.num.injEq] at hopen
  have ha0 : 0 < a0 := pos_of_round2_pos (hopen ▸ ha)
  cases N with
  | nan =>
    simp [JSNum.mul, JSNum.add, jsToFixed2] at hclose
  | inf =>
    simp only [JSNum.mul] at hclose
    split_ifs at hclose <;> simp_all [JSNum.add, JSNum.mul, jsToFixed2]
  | negInf =>
    simp only [JSNum.mul] at hclose
    split_ifs at hclose <;> simp_all [JSNum.add, JSNum.mul, jsToFixed2]
  | num z =>
  simp only [JSNum.mul, JSNum.add, jsToFixed2, JSNum.num.injEq] at hclose
  have hb0 : 0 < a0 * (1 + (trend + z * vol)) := pos_of_round2_pos (hclose ▸ hb)
  constructor
  · simp only [JSNum.mul, JSNum.add, JSNum.abs, JSNum.max, jsToFixed2, JSNum.leb,
      decide_eq_true_eq]
    rw [← monotone_round2.map_max]
    apply round2_mono
    have hmax : 0 < Max.max a0 (a0 * (1 + (trend + z * vol))) :=
      lt_max_of_lt_left ha0
    have hw : (1 : ℚ) ≤ 1 + |z * vol * (1/2) * w3| := by
      have := abs_nonneg (z * vol * (1/2) * w3)
      linarith
    calc Max.max a0 (a0 * (1 + (trend + z * vol)))
        = Max.max a0 (a0 * (1 + (trend + z * vol))) * 1 := by ring
      _ ≤ Max.max a0 (a0 * (1 + (trend + z * vol))) * (1 + |z * vol * (1/2) * w3|) := by
          apply mul_le_mul_of_nonneg_left hw (le_of_lt hmax)
  · simp only [JSNum.mul, JSNum.add, JSNum.sub, JSNum.neg, JSNum.abs, JSNum.min,
      jsToFixed2, JSNum.leb, decide_eq_true_eq]
    rw [← monotone_round2.map_min]
    apply round2_mono
    have hmin : 0 ≤ Min.min a0 (a0 * (1 + (trend + z * vol))) :=
      le_min (le_of_lt ha0) (le_of_lt hb0)
    have hw : 1 + (-|z * vol * (1/2) * w4|) ≤ (1 : ℚ) := by
      have := abs_nonneg (z * vol * (1/2) * w4)
      linarith
    calc Min.min a0 (a0 * (1 + (trend + z * vol))) * (1 + -|z * vol * (1/2) * w4|)
        ≤ Min.min a0 (a0 * (1 + (trend + z * vol))) * 1 := by
          apply mul_le_mul_of_nonneg_left hw hmin
      _ = Min.min a0 (a0 * (1 + (trend + z * vol))) := by ring

/-- Every emitted candle satisfies the conditional wick ordering: positive
finite stored open and close force `high ≥ max(open, close)` and
`low ≤ min(open, close)`. -/
theorem genLoop_wicks (env : MathEnv) (vol trend : ℚ) :
    ∀ (d : Nat) (day : Int) (s : Int) (price : JSNum),
      ∀ c ∈ genLoop env vol trend d day s price, ∀ a b : ℚ,
        c.open_ = .num a → 0 < a → c.close = .num b → 0 < b →
        JSNum.leb (JSNum.max c.open_ c.close) c.high = true ∧
        JSNum.leb c.low (JSNum.min c.open_ c.close) = true := by
  intro d
  induction d with
  | zero => intro day s price c hc; simp [genLoop] at hc
  | succ d ih =>
    intro day s price c hc
    rw [genLoop_succ] at hc
    by_cases h : isWeekend day
    · rw [if_pos h] at hc
      exact ih (day + 1) s price c hc
    · rw [if_neg h] at hc
      simp only [List.mem_cons] at hc
      rcases hc with rfl | hc
      · intro a b hopen ha hclose hb
        exact wick_core price _ vol trend _ _ a b hopen ha hclose hb
      · exact ih (day + 1) _ _ c hc

/-- C6 amended: generation is total; zero days yield an empty series; times
are strictly increasing and never fall on a weekend; and every candle whose
stored open and close are positive finite numbers has
`high ≥ max(open, close)` and `low ≤ min(open, close)`.  (The unconditional
OHLC positivity of the original claim fails: e.g. the empty symbol seeds
the PRNG at 0 and floods the series with NaN.) -/
theorem C6_generator_amended (env : MathEnv) (symbol : String) (startPrice : ℚ)
    (days : Nat) (volatility trend : ℚ) (now : Int) :
    generateCandlestickData env symbol startPrice 0 volatility trend now = [] ∧
    (generateCandlestickData env symbol startPrice days volatility trend now).Pairwise
      (fun c₁ c₂ => c₁.time < c₂.time) ∧
    (∀ c ∈ generateCandlestickData env symbol startPrice days volatility trend now,
      isWeekend c.time = false) ∧
    (∀ c ∈ generateCandlestickData env symbol startPrice days volatility trend now,
      ∀ a b : ℚ, c.open_ = .num a → 0 < a → c.close = .num b → 0 < b →
        JSNum.leb (JSNum.max c.open_ c.close) c.high = true ∧
        JSNum.leb c.low (JSNum.min c.open_ c.close) = true) := by
  refine ⟨rfl, ?_, ?_, ?_⟩
  · exact genLoop_pairwise env volatility trend days (now - days) _ _
  · intro c hc
    exact (genLoop_times env volatility trend days (now - days) _ _ c hc).2
  · intro c hc
    exact genLoop_wicks env volatility trend days (now - days) _ _ c hc

/-- C6 counterexample: for the empty symbol the seed is 0, the PRNG is
stuck at 0 with negative outputs, `Math.log` of a negative number is NaN,
and the first candle of `generateCandlestickData('', 100, 1, 0.02, 0.0003)`
(generated at a weekday `now`) has NaN high/low/close/volume — so neither
`close > 0` nor `high ≥ max(open, close)` holds, refuting the claim. -/
theorem C6_empty_symbol_counterexample :
    generateCandlestickData cenv "" 100 1 (1/50) (3/10000) 2 =
      [{ time := 1, open_ := .num 100, high := .nan, low := .nan,
         close := .nan, volume := .nan }] ∧
    ¬ (∀ c ∈ generateCandlestickData cenv "" 100 1 (1/50) (3/10000) 2,
        ∃ q : ℚ, c.close = .num q ∧ 0 < q) ∧
    ¬ (∀ c ∈ generateCandlestickData cenv "" 100 1 (1/50) (3/10000) 2,
        JSNum.leb (JSNum.max c.open_ c.close) c.high = true) := by
  have hseed : (charCodeSum "" : Int) * 31337 = 0 := rfl
  have hsr : seededRandomNext 0 = 0 := rfl
  have hu : srValue 0 = -(1/2147483646) := by
    unfold srValue
    norm_num
  have hgen : generateCandlestickData cenv "" 100 1 (1/50) (3/10000) 2 =
      [{ time := 1, open_ := .num 100, high := .nan, low := .nan,
         close := .nan, volume := .nan }] := by
    unfold generateCandlestickData
    rw [hseed]
    rw [genLoop_succ]
    rw [if_neg (by decide)]
    congr 1
    · simp only [genDay, hsr, hu]
      norm_num [jsLog, jsCos, jsSqrt, JSNum.mul, JSNum.add, JSNum.abs, JSNum.max,
        JSNum.min, JSNum.sub, JSNum.neg, jsToFixed2, jsRound, round2, cenv]
  refine ⟨hgen, ?_, ?_⟩
  · intro hall
    obtain ⟨q, hq, -⟩ := hall _ (by rw [hgen]; exact List.mem_singleton.mpr rfl)
    simp at hq
  · intro hall
    have := hall _ (by rw [hgen]; exact List.mem_singleton.mpr rfl)
    simp [JSNum.max, JSNum.leb] at this

theorem overflow_threshold_pos : (0 : ℚ) < OVERFLOW_THRESHOLD := by
  unfold OVERFLOW_THRESHOLD
  norm_num

/-- A validated trade's total is a positive finite double or `Infinity`
(never negative, never NaN). -/
theorem fpMul_total_cases (s p : ℚ) (hs : 0 < s) (hp : 0 < p) :
    (∃ t : ℚ, fpMul (.num s) (.num p) = .num t ∧ 0 < t) ∨
    fpMul (.num s) (.num p) = .inf := by
  have hT := overflow_threshold_pos
  show (∃ t : ℚ, satNum (s * p) = .num t ∧ 0 < t) ∨ satNum (s * p) = .inf
  unfold satNum
  split_ifs with h1 h2
  · right; rfl
  · exfalso
    have := mul_pos hs hp
    linarith
  · left; exact ⟨s * p, rfl, mul_pos hs hp⟩

/-- Passing both guards reduces `executeTradeFP` to its body. -/
theorem executeTradeFP_valid_eq (P : PortfolioFP) (sym : String) (ty : TradeType)
    (s p : ℚ) (dn : Int) (rid : String)
    (hs : 0 < s) (hd : s.den = 1) (hp : 0 < p) :
    executeTradeFP P sym ty (.num s) (.num p) dn rid =
      executeTradeValidFP P sym ty s p dn rid := by
  simp only [executeTradeFP]
  rw [if_neg (by simp [not_or, not_le.mpr hs, hd]), if_neg (not_le.mpr hp)]

/-- Any validation failure of `executeTradeFP` returns the portfolio
unchanged. -/
theorem executeTradeFP_invalid (P : PortfolioFP) (sym : String) (ty : TradeType)
    (sh pr : JSNum) (dn : Int) (rid : String)
    (h : ¬ ∃ s p : ℚ, sh = .num s ∧ 0 < s ∧ s.den = 1 ∧ pr = .num p ∧ 0 < p) :
    (executeTradeFP P sym ty sh pr dn rid).portfolio = P := by
  cases sh with
  | num s =>
    cases pr with
    | num p =>
      simp only [executeTradeFP]
      by_cases hs : s ≤ 0 ∨ ¬ s.den = 1
      · rw [if_pos hs]
      · rw [if_neg hs]
        push_neg at hs
        by_cases hp : p ≤ 0
        · rw [if_pos hp]
        · exact absurd ⟨s, p, rfl, hs.1, hs.2, rfl, not_le.mp hp⟩ h
    | nan => simp only [executeTradeFP]; split <;> rfl
    | inf => simp only [executeTradeFP]; split <;> rfl
    | negInf => simp only [executeTradeFP]; split <;> rfl
  | nan => cases pr <;> rfl
  | inf => cases pr <;> rfl
  | negInf => cases pr <;> rfl

/-- The cash after the validated body: unchanged, debited under a passed
`total > cash` guard, or credited. -/
theorem executeTradeValidFP_cash (P : PortfolioFP) (sym : String) (ty : TradeType)
    (s p : ℚ) (dn : Int) (rid : String) :
    (executeTradeValidFP P sym ty s p dn rid).portfolio.cash = P.cash ∨
    ((executeTradeValidFP P sym ty s p dn rid).portfolio.cash =
        fpSub P.cash (fpMul (.num s) (.num p)) ∧
      JSNum.ltb P.cash (fpMul (.num s) (.num p)) = false) ∨
    (executeTradeValidFP P sym ty s p dn rid).portfolio.cash =
      fpAdd P.cash (fpMul (.num s) (.num p)) := by
  cases ty with
  | buy =>
    by_cases hg : JSNum.ltb P.cash (fpMul (.num s) (.num p))
    · left; simp [executeTradeValidFP, hg]
    · rw [Bool.not_eq_true] at hg
      cases hfind : P.positions.findIdx? (fun q => q.symbol == sym) with
      | some i =>
        right; left
        exact ⟨by simp [executeTradeValidFP, hg, hfind], hg⟩
      | none =>
        right; left
        exact ⟨by simp [executeTradeValidFP, hg, hfind], hg⟩
  | sell =>
    cases hfind : P.positions.findIdx? (fun q => q.symbol == sym) with
    | none => left; simp [executeTradeValidFP, hfind]
    | some i =>
      by_cases hlt : JSNum.ltb (P.positions.getD i posDefaultFP).shares (.num s)
      · left
        simp only [List.getD_eq_getElem?_getD] at hlt
        simp [executeTradeValidFP, hfind, hlt]
      · rw [Bool.not_eq_true] at hlt
        simp only [List.getD_eq_getElem?_getD] at hlt
        by_cases he : jsEqNum (P.positions.getD i posDefaultFP).shares (.num s)
        · right; right
          simp only [List.getD_eq_getElem?_getD] at he
          simp [executeTradeValidFP, hfind, hlt, he]
        · right; right
          rw [Bool.not_eq_true] at he
          simp only [List.getD_eq_getElem?_getD] at he
          simp [executeTradeValidFP, hfind, hlt, he]

/-- One overflow-aware `executeTrade` call keeps cash out of the negative
numbers. -/
theorem executeTradeFP_cash_ok (P : PortfolioFP) (sym : String) (ty : TradeType)
    (sh pr : JSNum) (dn : Int) (rid : String) (h : cashOkFP P.cash) :
    cashOkFP (executeTradeFP P sym ty sh pr dn rid).portfolio.cash := by
  have hT := overflow_threshold_pos
  by_cases hv : ∃ s p : ℚ, sh = .num s ∧ 0 < s ∧ s.den = 1 ∧ pr = .num p ∧ 0 < p
  · obtain ⟨s, p, rfl, hs, hd, rfl, hp⟩ := hv
    rw [executeTradeFP_valid_eq P sym ty s p dn rid hs hd hp]
    rcases executeTradeValidFP_cash P sym ty s p dn rid with hc | ⟨hc, hg⟩ | hc
    · rw [hc]; exact h
    · rw [hc]
      rcases h with ⟨q, hq, hq0⟩ | hq | hq
      · rcases fpMul_total_cases s p hs hp with ⟨t, ht, ht0⟩ | ht
        · rw [hq, ht]
          rw [hq, ht] at hg
          simp only [JSNum.ltb, decide_eq_false_iff_not, not_lt] at hg
          show cashOkFP (satNum (q - t))
          unfold satNum
          split_ifs with h1 h2
          · right; left; rfl
          · exfalso; linarith
          · left; exact ⟨q - t, rfl, by linarith⟩
        · rw [hq, ht] at hg
          simp [JSNum.ltb] at hg
      · rcases fpMul_total_cases s p hs hp with ⟨t, ht, ht0⟩ | ht
        · rw [hq, ht]
          right; left
          simp [fpSub, JSNum.sub, JSNum.neg, JSNum.add]
        · rw [hq, ht]
          right; right
          simp [fpSub, JSNum.sub, JSNum.neg, JSNum.add]
      · rcases fpMul_total_cases s p hs hp with ⟨t, ht, ht0⟩ | ht
        · rw [hq, ht]
          right; right
          simp [fpSub, JSNum.sub, JSNum.neg, JSNum.add]
        · rw [hq, ht]
          right; right
          simp [fpSub, JSNum.sub, JSNum.neg, JSNum.add]
    · rw [hc]
      rcases h with ⟨q, hq, hq0⟩ | hq | hq
      · rcases fpMul_total_cases s p hs hp with ⟨t, ht, ht0⟩ | ht
        · rw [hq, ht]
          show cashOkFP (satNum (q + t))
          unfold satNum
          split_ifs with h1 h2
          · right; left; rfl
          · exfalso; linarith
          · left; exact ⟨q + t, rfl, by linarith⟩
        · rw [hq, ht]
          right; left
          simp [fpAdd, JSNum.add]
      · rcases fpMul_total_cases s p hs hp with ⟨t, ht, ht0⟩ | ht
        · rw [hq, ht]; right; left; simp [fpAdd, JSNum.add]
        · rw [hq, ht]; right; left; simp [fpAdd, JSNum.add]
      · rcases fpMul_total_cases s p hs hp with ⟨t, ht, ht0⟩ | ht
        · rw [hq, ht]; right; right; simp [fpAdd, JSNum.add]
        · rw [hq, ht]; right; right; simp [fpAdd, JSNum.add]
  · rw [executeTradeFP_invalid P sym ty sh pr dn rid hv]
    exact h

/-- C3 amended: in double arithmetic, starting from `createPortfolio(c)`
with `c ≥ 0`, after every sequence of `executeTrade` calls the cash is
never a negative number — it is a nonnegative finite number, `Infinity`,
or `NaN` (the non-finite states being reachable only through overflow). -/
theorem C3_cash_not_negative_amended (c : ℚ) (hc : 0 ≤ c) (cmds : List TradeCmd) :
    cashOkFP (runTradesFP (createPortfolioFP c) cmds).cash := by
  suffices h : ∀ (cmds : List TradeCmd) (P : PortfolioFP), cashOkFP P.cash →
      cashOkFP (runTradesFP P cmds).cash by
    exact h cmds (createPortfolioFP c) (Or.inl ⟨c, rfl, hc⟩)
  intro cmds
  induction cmds with
  | nil => intro P h; exact h
  | cons cmd rest ih =>
    intro P h
    exact ih _ (executeTradeFP_cash_ok P cmd.symbol cmd.type cmd.shares cmd.price
      cmd.dateNow cmd.rid h)

/-- Witness for the amended C3, run through the overflow sequence itself:
the final cash is `NaN`, which the amended invariant admits. -/
theorem C3_cash_not_negative_amended_witness :
    cashOkFP (runTradesFP (createPortfolioFP 100000)
      [⟨"X", .buy, .num 2, .num 1, 0, "aaaa"⟩,
       ⟨"X", .sell, .num 2, .num (10 ^ 308), 1, "bbbb"⟩,
       ⟨"X", .buy, .num 2, .num (10 ^ 308), 2, "cccc"⟩]).cash :=
  C3_cash_not_negative_amended 100000 (by norm_num) _

set_option maxRecDepth 10000 in
/-- C3 counterexample: all three trades pass validation (finite positive
integer shares, finite positive prices), yet the double `shares * price` of
the sell overflows to `Infinity`, making cash `Infinity`; the next buy's
total also overflows, `Infinity > Infinity` is false so the
insufficient-funds guard passes, and cash becomes
`Infinity - Infinity = NaN` — not `≥ 0`.  The claimed invariant fails on a
reachable validated trade sequence. -/
theorem C3_overflow_counterexample :
    (runTradesFP (createPortfolioFP 100000)
      [⟨"X", .buy, .num 2, .num 1, 0, "aaaa"⟩,
       ⟨"X", .sell, .num 2, .num (10 ^ 308), 1, "bbbb"⟩,
       ⟨"X", .buy, .num 2, .num (10 ^ 308), 2, "cccc"⟩]).cash = JSNum.nan ∧
    JSNum.leb (.num 0)
      (runTradesFP (createPortfolioFP 100000)
        [⟨"X", .buy, .num 2, .num 1, 0, "aaaa"⟩,
         ⟨"X", .sell, .num 2, .num (10 ^ 308), 1, "bbbb"⟩,
         ⟨"X", .buy, .num 2, .num (10 ^ 308), 2, "cccc"⟩]).cash = false := by
  have hnan : (runTradesFP (createPortfolioFP 100000)
      [⟨"X", .buy, .num 2, .num 1, 0, "aaaa"⟩,
       ⟨"X", .sell, .num 2, .num (10 ^ 308), 1, "bbbb"⟩,
       ⟨"X", .buy, .num 2, .num (10 ^ 308), 2, "cccc"⟩]).cash = JSNum.nan := by
    simp [runTradesFP, executeTradeFP, executeTradeValidFP, createPortfolioFP,
      fpMul, fpAdd, fpSub, satNum, OVERFLOW_THRESHOLD, mkTradeFP, mkTradeId,
      posDefaultFP, jsEqNum, JSNum.ltb, JSNum.add, JSNum.sub, JSNum.neg]
    norm_num
  exact ⟨hnan, by rw [hnan]; rfl⟩

end MarketFlow
